import Mathlib

/-!
Verification of the snake game-state engine (`src/game.rs`).

The engine is shallowly embedded: the `ndarray::Array2<Tile>` grid is
modelled as a total function `TileIndex → Tile` together with the
`level_width`/`level_height` fields (the Rust array has no cells outside the
bounds; all writes performed by the code are in-bounds, so out-of-bounds
cells of the model simply keep their initial `Floor` value).  `usize`/`u32`
are modelled as `Nat`: the only arithmetic is `(y ± 1) mod h` style index
stepping (no overflow; the `y + h - 1` expression needs `h ≥ 1`, which every
constructed grid satisfies, and is Nat-truncation-safe) and `score + 10`,
which stays far below `2^32` for any grid that fits in memory (each `+10`
requires eating a food tile, which grows the snake by a cell).
`Result<T, String>` is modelled as `Except String T`.

The one source of nondeterminism, `rand::thread_rng` inside `spawn_food`,
is modelled by passing the index chosen by the rejection-sampling loop as an
explicit parameter: the loop exits exactly when the freshly drawn in-bounds
index holds `Floor`, so every terminating execution of `spawn_food` is
`spawn_food s fi` for some `fi` with `fi` in bounds and `s.tiles fi = Floor`.
-/

namespace Snake

abbrev TileIndex := Nat × Nat

inductive Direction where
  | Up
  | Down
  | Left
  | Right
deriving DecidableEq, Repr

/-- `Direction::reverse` from `src/game.rs`. -/
def Direction.reverse : Direction → Direction
  | .Up => .Down
  | .Down => .Up
  | .Left => .Right
  | .Right => .Left

inductive Tile where
  | Floor
  | Wall
  | Food
  -- Snake contains the optional directions towards the previous and next
  -- snake segments (tail: `Snake none (some _)`, head: `Snake (some _) none`).
  | Snake (pr nx : Option Direction)
deriving DecidableEq, Repr

/-- The `GameState` struct from `src/game.rs`; the `ndarray` grid is a total
function on indices (see module comment). -/
structure GameState where
  level_width : Nat
  level_height : Nat
  tiles : TileIndex → Tile
  snake_head_idx : TileIndex
  snake_tail_idx : TileIndex
  snake_dir : Direction
  snake_alive : Bool
  score : Nat
  highscore : Nat

/-- A single array store `self.tiles[i] = v`. -/
def setTile (t : TileIndex → Tile) (i : TileIndex) (v : Tile) : TileIndex → Tile :=
  fun j => if j = i then v else t j

/-- `GameState::swap_tile` (acts on the grid; the source method reads and
writes only `self.tiles`). -/
def swap_tile (t : TileIndex → Tile) (i : TileIndex) (tile1 tile2 : Tile) :
    TileIndex → Tile :=
  if t i = tile1 then setTile t i tile2
  else if t i = tile2 then setTile t i tile1
  else t

/-- The list of border indices visited by the two loops of
`GameState::toggle_walls`, in loop order: `for x in 0..w` touching `(0,x)`
and `(h-1,x)`, then `for y in 1..h-1` touching `(y,0)` and `(y,w-1)`. -/
def wallIdxs (w h : Nat) : List TileIndex :=
  ((List.range w).foldr (fun x acc => (0, x) :: (h - 1, x) :: acc) []) ++
  ((List.range' 1 (h - 2)).foldr (fun y acc => (y, 0) :: (y, w - 1) :: acc) [])

/-- Sequentially apply `swap_tile _ i Floor Wall` at each index of the list. -/
def applySwaps (t : TileIndex → Tile) (L : List TileIndex) : TileIndex → Tile :=
  L.foldl (fun acc i => swap_tile acc i Tile.Floor Tile.Wall) t

/-- `GameState::toggle_walls`. -/
def toggle_walls (s : GameState) : GameState :=
  { s with tiles := applySwaps s.tiles (wallIdxs s.level_width s.level_height) }

/-- `GameState::spawn_food`, with the index chosen by the rng loop passed
explicitly (see module comment): the loop exits at the first random
in-bounds index whose tile is `Floor` and stores `Food` there. -/
def spawn_food (s : GameState) (fi : TileIndex) : GameState :=
  { s with tiles := setTile s.tiles fi Tile.Food }

/-- The state built by `GameState::new` just before the final `spawn_food`
call: all-`Floor` grid, the three snake segments at `(3,3)`–`(3,5)`, then
`toggle_walls`. -/
def newPreFood (level_width level_height highscore : Nat) : GameState :=
  let tiles0 : TileIndex → Tile := fun _ => Tile.Floor
  let tiles1 := setTile tiles0 (3, 3) (.Snake none (some .Right))
  let tiles2 := setTile tiles1 (3, 4) (.Snake (some .Left) (some .Right))
  let tiles3 := setTile tiles2 (3, 5) (.Snake (some .Left) none)
  toggle_walls
    { level_width := level_width
      level_height := level_height
      tiles := tiles3
      snake_head_idx := (3, 5)
      snake_tail_idx := (3, 3)
      snake_dir := .Right
      snake_alive := true
      score := 0
      highscore := highscore }

/-- `GameState::new` (with the food index chosen by `spawn_food`'s loop as
an explicit parameter). -/
def new (level_width level_height highscore : Nat) (fi : TileIndex) : GameState :=
  spawn_food (newPreFood level_width level_height highscore) fi

/-- `GameState::reset`. -/
def reset (s : GameState) (fi : TileIndex) : GameState :=
  new s.level_width s.level_height s.highscore fi

/-- `GameState::get_snake_prev` (reads only `self.tiles`). -/
def get_snake_prev (t : TileIndex → Tile) (i : TileIndex) : Except String Direction :=
  match t i with
  | .Snake (some p) _ => .ok p
  | _ => .error "Expected Snake(Some(_), _) on tile"

/-- `GameState::get_snake_next` (reads only `self.tiles`). -/
def get_snake_next (t : TileIndex → Tile) (i : TileIndex) : Except String Direction :=
  match t i with
  | .Snake _ (some n) => .ok n
  | _ => .error "Expected Snake(_, Some(_)) on tile"

/-- `GameState::add_dir_to_index` (reads only the two level dimensions). -/
def add_dir_to_index (w h : Nat) : TileIndex → Direction → TileIndex
  | (y, x), .Up => ((y + h - 1) % h, x)
  | (y, x), .Down => ((y + 1) % h, x)
  | (y, x), .Left => (y, (x + w - 1) % w)
  | (y, x), .Right => (y, (x + 1) % w)

/-- The heading after the input-handling block at the top of
`GameState::update`: a pending direction is adopted unless it is the exact
reverse of the current heading. -/
def effDir (s : GameState) (input : Option Direction) : Direction :=
  match input with
  | some d => if d = s.snake_dir.reverse then s.snake_dir else d
  | none => s.snake_dir

/-- `GameState::update`.  The source mutates `self.snake_dir` in the input
block and uses it afterwards; here the post-input heading is `effDir s input`
and each returned state carries it in `snake_dir`.  `fi` is the index chosen
by the `spawn_food` loop in the eat branch (unused otherwise). -/
def update (s : GameState) (input : Option Direction) (fi : TileIndex) :
    Except String GameState :=
  -- Don't do anything if the snake is dead
  if s.snake_alive = false then .ok s else
  let dir := effDir s input
  -- Move snake
  let new_head := add_dir_to_index s.level_width s.level_height s.snake_head_idx dir
  match get_snake_next s.tiles s.snake_tail_idx with
  | .error e => .error e
  | .ok tail_next =>
    let new_tail := add_dir_to_index s.level_width s.level_height s.snake_tail_idx tail_next
    -- Check for collision
    match s.tiles new_head with
    | .Wall | .Snake _ _ =>
      -- New head collides with wall or snake, so game over
      .ok { s with snake_dir := dir, snake_alive := false,
                   highscore := if s.score > s.highscore then s.score else s.highscore }
    | hit =>
      -- Move snake head
      match get_snake_prev s.tiles s.snake_head_idx with
      | .error e => .error e
      | .ok head_prev =>
        let t2 := setTile (setTile s.tiles s.snake_head_idx
                    (.Snake (some head_prev) (some dir)))
                  new_head (.Snake (some dir.reverse) none)
        -- Spawn new food or move snake tail
        if hit = Tile.Food then
          .ok { s with snake_dir := dir, snake_head_idx := new_head,
                       tiles := setTile t2 fi Tile.Food, score := s.score + 10 }
        else
          let t3 := setTile t2 s.snake_tail_idx Tile.Floor
          match get_snake_next t3 new_tail with
          | .error e => .error e
          | .ok nt_next =>
            .ok { s with snake_dir := dir, snake_head_idx := new_head,
                         snake_tail_idx := new_tail,
                         tiles := setTile t3 new_tail (.Snake none (some nt_next)) }

/-! ### Pointwise behaviour of `toggle_walls` -/

/-- The Floor↔Wall swap applied to a single tile value. -/
def swapFW (v : Tile) : Tile :=
  if v = Tile.Floor then Tile.Wall else if v = Tile.Wall then Tile.Floor else v

theorem swap_tile_apply (t : TileIndex → Tile) (i j : TileIndex) :
    swap_tile t i Tile.Floor Tile.Wall j = if j = i then swapFW (t i) else t j := by
  by_cases hji : j = i <;>
    by_cases h1 : t i = Tile.Floor <;>
      by_cases h2 : t i = Tile.Wall <;>
        simp [swap_tile, setTile, swapFW, hji, h1, h2]

theorem swapFW_swapFW (v : Tile) : swapFW (swapFW v) = v := by
  by_cases h1 : v = Tile.Floor <;> by_cases h2 : v = Tile.Wall <;>
    simp [swapFW, h1, h2]

/-- `applySwaps` acts pointwise: the value of a cell after the sweep depends
only on its own initial value and how often the cell occurs in the list. -/
theorem applySwaps_apply (L : List TileIndex) (t : TileIndex → Tile) (j : TileIndex) :
    applySwaps t L j = swapFW^[L.count j] (t j) := by
  induction L generalizing t with
  | nil => simp [applySwaps]
  | cons i L ih =>
    have hstep : applySwaps t (i :: L) = applySwaps (swap_tile t i Tile.Floor Tile.Wall) L := rfl
    rw [hstep, ih, swap_tile_apply]
    by_cases hji : j = i
    · subst hji
      simp [List.count_cons, Function.iterate_succ_apply]
    · have : (i :: L).count j = L.count j := by
        simp [List.count_cons, Ne.symm hji, hji]
      rw [this, if_neg hji]

theorem swapFW_iterate_two_mul (n : Nat) (v : Tile) : swapFW^[2 * n] v = v := by
  induction n with
  | zero => simp
  | succ k ih =>
    have : 2 * (k + 1) = 2 * k + 2 := by omega
    rw [this, Function.iterate_add_apply]
    have h2 : swapFW^[2] v = v := by
      simp [Function.iterate_succ_apply, swapFW_swapFW]
    rw [h2, ih]

theorem applySwaps_applySwaps (t : TileIndex → Tile) (L : List TileIndex) :
    applySwaps (applySwaps t L) L = t := by
  funext j
  rw [applySwaps_apply, applySwaps_apply, ← Function.iterate_add_apply]
  have : L.count j + L.count j = 2 * L.count j := by omega
  rw [this, swapFW_iterate_two_mul]

/-- A 3×3 all-floor state used to refute idempotence of `toggle_walls`. -/
def gFloor : GameState :=
  { level_width := 3
    level_height := 3
    tiles := fun _ => Tile.Floor
    snake_head_idx := (0, 0)
    snake_tail_idx := (0, 0)
    snake_dir := .Right
    snake_alive := true
    score := 0
    highscore := 0 }

/-- C9 counterexample: `toggle_walls` is not idempotent.  On the all-floor
3×3 state, one application turns the corner `(0,0)` into `Wall` while a
second application turns it back to `Floor`, so applying it twice does not
yield the same tiles array as applying it once. -/
theorem toggle_walls_not_idempotent :
    ¬ (toggle_walls (toggle_walls gFloor)).tiles = (toggle_walls gFloor).tiles := by
  intro h
  have h0 := congrFun h ((0 : Nat), (0 : Nat))
  revert h0
  decide

/-- C9 (amended): `toggle_walls` is an involution: applying it twice
restores the original tiles array (each cell is swapped Floor↔Wall once per
occurrence of its index in the border sweep, and the swap is self-inverse). -/
theorem toggle_walls_involutive (s : GameState) :
    (toggle_walls (toggle_walls s)).tiles = s.tiles := by
  show applySwaps (applySwaps s.tiles (wallIdxs s.level_width s.level_height))
      (wallIdxs s.level_width s.level_height) = s.tiles
  exact applySwaps_applySwaps s.tiles (wallIdxs s.level_width s.level_height)

/-! ### C8: the coordinate-stepping function -/

/-- C8: `add_dir_to_index` implements wrapping arithmetic: for an in-bounds
index `(y, x)`, stepping Up/Down/Left/Right yields the specified wrapped
coordinate, the result is always in bounds, and (since `y + h - 1 ≥ h - 1`
when `h ≥ 1`) no underflow occurs even at row or column 0. -/
theorem add_dir_to_index_spec (w h y x : Nat) (hy : y < h) (hx : x < w) :
    add_dir_to_index w h (y, x) .Up = ((y + h - 1) % h, x) ∧
    add_dir_to_index w h (y, x) .Down = ((y + 1) % h, x) ∧
    add_dir_to_index w h (y, x) .Left = (y, (x + w - 1) % w) ∧
    add_dir_to_index w h (y, x) .Right = (y, (x + 1) % w) ∧
    (∀ d : Direction, (add_dir_to_index w h (y, x) d).1 < h ∧
      (add_dir_to_index w h (y, x) d).2 < w) := by
  have hh : 0 < h := Nat.pos_of_ne_zero (by omega)
  have hw : 0 < w := Nat.pos_of_ne_zero (by omega)
  refine ⟨rfl, rfl, rfl, rfl, ?_⟩
  intro d
  cases d <;> simp [add_dir_to_index] <;>
    first
      | exact ⟨Nat.mod_lt _ hh, hx⟩
      | exact ⟨hy, Nat.mod_lt _ hw⟩

theorem add_dir_to_index_spec_witness :
    (2 : Nat) < 5 ∧ (0 : Nat) < 7 ∧
    (add_dir_to_index 7 5 (2, 0) .Up = ((2 + 5 - 1) % 5, 0) ∧
     add_dir_to_index 7 5 (2, 0) .Down = ((2 + 1) % 5, 0) ∧
     add_dir_to_index 7 5 (2, 0) .Left = (2, (0 + 7 - 1) % 7) ∧
     add_dir_to_index 7 5 (2, 0) .Right = (2, (0 + 1) % 7) ∧
     (∀ d : Direction, (add_dir_to_index 7 5 (2, 0) d).1 < 5 ∧
       (add_dir_to_index 7 5 (2, 0) d).2 < 7)) :=
  ⟨by decide, by decide, add_dir_to_index_spec 7 5 2 0 (by decide) (by decide)⟩

/-! ### C4: death is terminal -/

/-- C4: once `snake_alive` is false, `update` is a no-op returning `Ok` for
every input: the state (tiles, score, snake indices, everything) is returned
unchanged. -/
theorem update_dead_noop (s : GameState) (input : Option Direction) (fi : TileIndex)
    (hdead : s.snake_alive = false) : update s input fi = .ok s := by
  simp [update, hdead]

/-- A concrete dead state for the C4 witness. -/
def gDead : GameState :=
  { gFloor with snake_alive := false, score := 30, highscore := 40 }

theorem update_dead_noop_witness :
    gDead.snake_alive = false ∧ update gDead (some .Up) (0, 0) = .ok gDead :=
  ⟨rfl, update_dead_noop gDead (some .Up) (0, 0) rfl⟩
/-! ### Branch characterizations of `update` -/

/-- If the tile at the new head position is `Wall` or `Snake`, a successful
`update` returns the death state: alive flag cleared, highscore latched,
everything else (tiles, score, indices) unchanged. -/
theorem update_death_char (s s' : GameState) (input : Option Direction) (fi : TileIndex)
    (ha : s.snake_alive = true)
    (hhit : s.tiles (add_dir_to_index s.level_width s.level_height s.snake_head_idx
        (effDir s input)) = Tile.Wall ∨
      ∃ p q, s.tiles (add_dir_to_index s.level_width s.level_height s.snake_head_idx
        (effDir s input)) = .Snake p q)
    (h : update s input fi = .ok s') :
    s' = { s with
            snake_dir := effDir s input
            snake_alive := false
            highscore := if s.score > s.highscore then s.score else s.highscore } := by
  unfold update at h
  rw [if_neg (by simp [ha])] at h
  simp only [] at h
  rcases hgn : get_snake_next s.tiles s.snake_tail_idx with e | d0 <;> rw [hgn] at h
  · cases h
  · rcases hhit with hw | ⟨p, q, hsn⟩
    · rw [hw] at h
      simp only [Except.ok.injEq] at h
      exact h.symm
    · rw [hsn] at h
      simp only [Except.ok.injEq] at h
      exact h.symm

/-- If the tile at the new head position is `Food`, a successful `update`
moves the head, increments the score by 10 and spawns the new food at `fi`;
the tail is not advanced. -/
theorem update_eat_char (s s' : GameState) (input : Option Direction) (fi : TileIndex)
    (ha : s.snake_alive = true)
    (hhit : s.tiles (add_dir_to_index s.level_width s.level_height s.snake_head_idx
        (effDir s input)) = Tile.Food)
    (h : update s input fi = .ok s') :
    ∃ hp, get_snake_prev s.tiles s.snake_head_idx = .ok hp ∧
      s' = { s with
              snake_dir := effDir s input
              snake_head_idx := add_dir_to_index s.level_width s.level_height
                s.snake_head_idx (effDir s input)
              tiles := setTile (setTile (setTile s.tiles s.snake_head_idx
                  (.Snake (some hp) (some (effDir s input))))
                (add_dir_to_index s.level_width s.level_height s.snake_head_idx
                  (effDir s input))
                (.Snake (some (effDir s input).reverse) none)) fi Tile.Food
              score := s.score + 10 } := by
  unfold update at h
  rw [if_neg (by simp [ha])] at h
  simp only [] at h
  rcases hgn : get_snake_next s.tiles s.snake_tail_idx with e | d0 <;> rw [hgn] at h
  · cases h
  · rw [hhit] at h
    rcases hgp : get_snake_prev s.tiles s.snake_head_idx with e | hp <;> rw [hgp] at h
    · cases h
    · simp only [reduceIte, Except.ok.injEq] at h
      exact ⟨hp, rfl, h.symm⟩

/-- If the tile at the new head position is `Floor`, a successful `update`
moves the head, clears the old tail cell and advances the tail one step
along the old tail's next link; the score is unchanged. -/
theorem update_move_char (s s' : GameState) (input : Option Direction) (fi : TileIndex)
    (ha : s.snake_alive = true)
    (hhit : s.tiles (add_dir_to_index s.level_width s.level_height s.snake_head_idx
        (effDir s input)) = Tile.Floor)
    (h : update s input fi = .ok s') :
    ∃ d0 hp ntn,
      get_snake_next s.tiles s.snake_tail_idx = .ok d0 ∧
      get_snake_prev s.tiles s.snake_head_idx = .ok hp ∧
      get_snake_next
        (setTile (setTile (setTile s.tiles s.snake_head_idx
             (.Snake (some hp) (some (effDir s input))))
           (add_dir_to_index s.level_width s.level_height s.snake_head_idx
             (effDir s input))
           (.Snake (some (effDir s input).reverse) none))
          s.snake_tail_idx Tile.Floor)
        (add_dir_to_index s.level_width s.level_height s.snake_tail_idx d0) = .ok ntn ∧
      s' = { s with
              snake_dir := effDir s input
              snake_head_idx := add_dir_to_index s.level_width s.level_height
                s.snake_head_idx (effDir s input)
              snake_tail_idx := add_dir_to_index s.level_width s.level_height
                s.snake_tail_idx d0
              tiles := setTile
                (setTile (setTile (setTile s.tiles s.snake_head_idx
                     (.Snake (some hp) (some (effDir s input))))
                   (add_dir_to_index s.level_width s.level_height s.snake_head_idx
                     (effDir s input))
                   (.Snake (some (effDir s input).reverse) none))
                  s.snake_tail_idx Tile.Floor)
                (add_dir_to_index s.level_width s.level_height s.snake_tail_idx d0)
                (.Snake none (some ntn)) } := by
  unfold update at h
  rw [if_neg (by simp [ha])] at h
  simp only [] at h
  rcases hgn : get_snake_next s.tiles s.snake_tail_idx with e | d0 <;> rw [hgn] at h
  · cases h
  · rw [hhit] at h
    rcases hgp : get_snake_prev s.tiles s.snake_head_idx with e | hp <;> rw [hgp] at h
    · cases h
    · simp only [] at h
      split at h
      case isTrue hfe => exact absurd hfe (by decide)
      case isFalse hfe => ?_
      rcases hgn2 : get_snake_next
          (setTile (setTile (setTile s.tiles s.snake_head_idx
               (.Snake (some hp) (some (effDir s input))))
             (add_dir_to_index s.level_width s.level_height s.snake_head_idx
               (effDir s input))
             (.Snake (some (effDir s input).reverse) none))
            s.snake_tail_idx Tile.Floor)
          (add_dir_to_index s.level_width s.level_height s.snake_tail_idx d0)
          with e | ntn <;> rw [hgn2] at h
      · cases h
      · simp only [Except.ok.injEq] at h
        exact ⟨d0, hp, ntn, rfl, rfl, hgn2, h.symm⟩

/-! ### C3: the no-reverse rule -/

/-- C3: while alive, an input equal to the exact reverse of the current
heading never changes the heading, and any other input direction becomes
the new heading; the head (when it moves at all, i.e. outside the death
branch) moves one step in the adopted heading. -/
theorem update_no_reverse_rule (s s' : GameState) (d : Direction) (fi : TileIndex)
    (ha : s.snake_alive = true)
    (h : update s (some d) fi = .ok s') :
    (d = s.snake_dir.reverse → s'.snake_dir = s.snake_dir) ∧
    (d ≠ s.snake_dir.reverse → s'.snake_dir = d) ∧
    (s'.snake_head_idx = s.snake_head_idx ∨
     s'.snake_head_idx = add_dir_to_index s.level_width s.level_height
       s.snake_head_idx s'.snake_dir) := by
  have hdir : ∀ s'' : GameState, s''.snake_dir = effDir s (some d) →
      (d = s.snake_dir.reverse → s''.snake_dir = s.snake_dir) ∧
      (d ≠ s.snake_dir.reverse → s''.snake_dir = d) := by
    intro s'' hs
    constructor
    · intro hrev; rw [hs]; simp [effDir, hrev]
    · intro hrev; rw [hs]; simp [effDir, hrev]
  rcases hhit : s.tiles (add_dir_to_index s.level_width s.level_height s.snake_head_idx
      (effDir s (some d))) with _ | _ | _ | ⟨p, q⟩
  · -- Floor: normal move
    obtain ⟨d0, hp, ntn, _, _, _, hs⟩ := update_move_char s s' (some d) fi ha hhit h
    subst hs
    exact ⟨(hdir _ rfl).1, (hdir _ rfl).2, Or.inr rfl⟩
  · -- Wall: death
    have hs := update_death_char s s' (some d) fi ha (Or.inl hhit) h
    subst hs
    exact ⟨(hdir _ rfl).1, (hdir _ rfl).2, Or.inl rfl⟩
  · -- Food: eat
    obtain ⟨hp, _, hs⟩ := update_eat_char s s' (some d) fi ha hhit h
    subst hs
    exact ⟨(hdir _ rfl).1, (hdir _ rfl).2, Or.inr rfl⟩
  · -- Snake: death
    have hs := update_death_char s s' (some d) fi ha (Or.inr ⟨p, q, hhit⟩) h
    subst hs
    exact ⟨(hdir _ rfl).1, (hdir _ rfl).2, Or.inl rfl⟩

/-- A concrete pre-collision state: 5×5, snake `(1,1)`–`(1,3)` heading
Right, a wall directly ahead at `(1,4)`. -/
def gWall : GameState :=
  { level_width := 5
    level_height := 5
    tiles := fun i =>
      if i = (1, 1) then .Snake none (some .Right)
      else if i = (1, 2) then .Snake (some .Left) (some .Right)
      else if i = (1, 3) then .Snake (some .Left) none
      else if i = (1, 4) then .Wall
      else .Floor
    snake_head_idx := (1, 3)
    snake_tail_idx := (1, 1)
    snake_dir := .Right
    snake_alive := true
    score := 3
    highscore := 7 }

theorem update_no_reverse_rule_witness :
    gWall.snake_alive = true ∧
    (∃ s', update gWall (some .Up) (0, 0) = .ok s') ∧
    (∀ s', update gWall (some .Up) (0, 0) = .ok s' →
      (Direction.Up = gWall.snake_dir.reverse → s'.snake_dir = gWall.snake_dir) ∧
      (Direction.Up ≠ gWall.snake_dir.reverse → s'.snake_dir = Direction.Up) ∧
      (s'.snake_head_idx = gWall.snake_head_idx ∨
       s'.snake_head_idx = add_dir_to_index gWall.level_width gWall.level_height
         gWall.snake_head_idx s'.snake_dir)) := by
  refine ⟨rfl, ⟨_, rfl⟩, ?_⟩
  intro s' h
  exact update_no_reverse_rule gWall s' .Up (0, 0) rfl h

/-! ### C2: death latches the highscore; reset preserves it -/

/-- C2: when the newly computed head cell holds `Wall` or `Snake`, `update`
clears `snake_alive`, sets `highscore` to `max highscore score`, and leaves
tiles and score untouched; and `reset` carries the highscore forward
unchanged (so it never decreases across a reset). -/
theorem death_highscore_latch :
    (∀ (s s' : GameState) (input : Option Direction) (fi : TileIndex),
      s.snake_alive = true →
      (s.tiles (add_dir_to_index s.level_width s.level_height s.snake_head_idx
          (effDir s input)) = Tile.Wall ∨
        ∃ p q, s.tiles (add_dir_to_index s.level_width s.level_height s.snake_head_idx
          (effDir s input)) = .Snake p q) →
      update s input fi = .ok s' →
      s'.snake_alive = false ∧ s'.highscore = max s.highscore s.score ∧
      s'.tiles = s.tiles ∧ s'.score = s.score) ∧
    (∀ (s : GameState) (fi : TileIndex), (reset s fi).highscore = s.highscore) := by
  constructor
  · intro s s' input fi ha hhit h
    have hs := update_death_char s s' input fi ha hhit h
    subst hs
    have hmax : (if s.score > s.highscore then s.score else s.highscore) =
        max s.highscore s.score := by
      split <;> omega
    exact ⟨rfl, hmax, rfl, rfl⟩
  · intro s fi
    rfl

theorem death_highscore_latch_witness :
    gWall.snake_alive = true ∧
    (∃ s', update gWall none (0, 0) = .ok s' ∧ s'.snake_alive = false ∧
      s'.highscore = max gWall.highscore gWall.score ∧ s'.tiles = gWall.tiles ∧
      s'.score = gWall.score) ∧
    (reset gWall (1, 1)).highscore = gWall.highscore := by
  refine ⟨rfl, ⟨_, rfl, ?_⟩, death_highscore_latch.2 gWall (1, 1)⟩
  exact death_highscore_latch.1 gWall _ none (0, 0) rfl (Or.inl rfl) rfl

/-! ### Wrapping-step arithmetic -/

/-- In-bounds predicate for a `w × h` grid (row < h, column < w). -/
def InB (w h : Nat) (i : TileIndex) : Prop := i.1 < h ∧ i.2 < w

instance (w h : Nat) (i : TileIndex) : Decidable (InB w h i) := by
  unfold InB; infer_instance

theorem mod_step_up_down {h y : Nat} (hy : y < h) : ((y + h - 1) % h + 1) % h = y := by
  rw [Nat.mod_add_mod]
  have e : y + h - 1 + 1 = y + h := by omega
  rw [e, Nat.add_mod_right, Nat.mod_eq_of_lt hy]

theorem mod_step_down_up {h y : Nat} (hy : y < h) : ((y + 1) % h + h - 1) % h = y := by
  have e1 : (y + 1) % h + h - 1 = (y + 1) % h + (h - 1) := by omega
  rw [e1, Nat.mod_add_mod]
  have e2 : y + 1 + (h - 1) = y + h := by omega
  rw [e2, Nat.add_mod_right, Nat.mod_eq_of_lt hy]

theorem add_dir_inb {w h : Nat} {i : TileIndex} (hb : InB w h i) (d : Direction) :
    InB w h (add_dir_to_index w h i d) := by
  obtain ⟨y, x⟩ := i
  obtain ⟨hy, hx⟩ := hb
  have hh : 0 < h := by omega
  have hw : 0 < w := by omega
  cases d
  · exact ⟨Nat.mod_lt _ hh, hx⟩
  · exact ⟨Nat.mod_lt _ hh, hx⟩
  · exact ⟨hy, Nat.mod_lt _ hw⟩
  · exact ⟨hy, Nat.mod_lt _ hw⟩

theorem add_dir_reverse {w h : Nat} {i : TileIndex} (hb : InB w h i) (d : Direction) :
    add_dir_to_index w h (add_dir_to_index w h i d) d.reverse = i := by
  obtain ⟨y, x⟩ := i
  obtain ⟨hy, hx⟩ := hb
  cases d
  · show ((((y + h - 1) % h) + 1) % h, x) = (y, x)
    rw [mod_step_up_down hy]
  · show ((((y + 1) % h) + h - 1) % h, x) = (y, x)
    rw [mod_step_down_up hy]
  · show (y, (((x + w - 1) % w) + 1) % w) = (y, x)
    rw [mod_step_up_down hx]
  · show (y, (((x + 1) % w) + w - 1) % w) = (y, x)
    rw [mod_step_down_up hx]

theorem mod_up_ne {h y : Nat} (hh : 2 ≤ h) : (y + h - 1) % h ≠ y := by
  intro he
  have hpos : 0 < h := by omega
  rcases Nat.lt_or_ge y h with hy | hy
  · rcases Nat.eq_zero_or_pos y with h0 | h0
    · subst h0
      rw [Nat.zero_add, Nat.mod_eq_of_lt (by omega)] at he
      omega
    · have e1 : y + h - 1 = (y - 1) + h := by omega
      rw [e1, Nat.add_mod_right, Nat.mod_eq_of_lt (by omega)] at he
      omega
  · have := Nat.mod_lt (y + h - 1) hpos
    omega

theorem mod_down_ne {h y : Nat} (hh : 2 ≤ h) : (y + 1) % h ≠ y := by
  intro he
  have hpos : 0 < h := by omega
  rcases Nat.lt_or_ge (y + 1) h with hy | hy
  · rw [Nat.mod_eq_of_lt hy] at he; omega
  · rcases Nat.lt_or_ge y h with hy2 | hy2
    · have e : y + 1 = h := by omega
      rw [e, Nat.mod_self] at he
      omega
    · have := Nat.mod_lt (y + 1) hpos
      omega

/-- On a grid with both dimensions at least 2, stepping never stays put. -/
theorem add_dir_ne {w h : Nat} (hw : 2 ≤ w) (hh : 2 ≤ h) (i : TileIndex) (d : Direction) :
    add_dir_to_index w h i d ≠ i := by
  obtain ⟨y, x⟩ := i
  cases d <;> intro he <;> rw [Prod.mk.injEq] at he
  · exact mod_up_ne hh he.1
  · exact mod_down_ne hh he.1
  · exact mod_up_ne hw he.2
  · exact mod_down_ne hw he.2

/-! ### List helpers -/

theorem getLast?_mem_list {α : Type _} : ∀ {l : List α} {a : α}, l.getLast? = some a → a ∈ l
  | [], _, h => by cases h
  | [b], a, h => by simp_all
  | b :: c :: l, a, h => by
    rw [List.getLast?_cons_cons] at h
    exact List.mem_cons_of_mem b (getLast?_mem_list h)

theorem getLast?_cons_ne {α : Type _} (a : α) {l : List α} (h : l ≠ []) :
    (a :: l).getLast? = l.getLast? := by
  cases l with
  | nil => exact absurd rfl h
  | cons b m => exact List.getLast?_cons_cons

/-! ### The snake chain -/

/-- `ChainT t w h pr i l`: starting at cell `i`, whose stored `prev` link is
`pr`, the list `l` enumerates the snake cells reached by repeatedly
following `next` links through the grid `t` (with the wrapping step
arithmetic of a `w × h` level), ending at a cell with `next = none` (the
head).  Each chain cell is in bounds and each non-initial cell's `prev`
link is the reverse of the link that led to it. -/
inductive ChainT (t : TileIndex → Tile) (w h : Nat) :
    Option Direction → TileIndex → List TileIndex → Prop where
  | single (pr : Option Direction) (i : TileIndex) :
      InB w h i → t i = .Snake pr none → ChainT t w h pr i [i]
  | cons (pr : Option Direction) (i : TileIndex) (d : Direction) (j : TileIndex)
      (l : List TileIndex) :
      InB w h i → t i = .Snake pr (some d) →
      add_dir_to_index w h i d = j → ChainT t w h (some d.reverse) j l →
      ChainT t w h pr i (i :: l)

namespace ChainT

variable {t t' : TileIndex → Tile} {w h : Nat} {pr : Option Direction}
variable {i : TileIndex} {l : List TileIndex}

theorem ne_nil (hc : ChainT t w h pr i l) : l ≠ [] := by
  cases hc <;> simp

theorem head_eq (hc : ChainT t w h pr i l) : l.head? = some i := by
  cases hc <;> rfl

theorem start_mem (hc : ChainT t w h pr i l) : i ∈ l := by
  cases hc <;> exact List.mem_cons_self _ _

theorem first_tile (hc : ChainT t w h pr i l) :
    ∃ q, t i = .Snake pr q ∧ InB w h i := by
  cases hc with
  | single _ _ hb ht => exact ⟨none, ht, hb⟩
  | cons _ _ d _ _ hb ht _ _ => exact ⟨some d, ht, hb⟩

theorem mem_snake (hc : ChainT t w h pr i l) :
    ∀ j ∈ l, (∃ p q, t j = .Snake p q) ∧ InB w h j := by
  induction hc with
  | single pr i hb ht =>
    intro j hj
    rw [List.mem_singleton] at hj
    subst hj
    exact ⟨⟨pr, none, ht⟩, hb⟩
  | cons pr i d j' l hb ht hstep hrest ih =>
    intro k hk
    rcases List.mem_cons.mp hk with hk | hk
    · subst hk; exact ⟨⟨pr, some d, ht⟩, hb⟩
    · exact ih k hk

theorem last_tile (hc : ChainT t w h pr i l) :
    ∀ z, l.getLast? = some z → ∃ p, t z = .Snake p none := by
  induction hc with
  | single pr i hb ht =>
    intro z hz
    have : i = z := by simpa using hz
    subst this
    exact ⟨pr, ht⟩
  | cons pr i d j l hb ht hstep hrest ih =>
    intro z hz
    rw [getLast?_cons_ne i hrest.ne_nil] at hz
    exact ih z hz

theorem next_none_last (hc : ChainT t w h pr i l) :
    ∀ j ∈ l, (∃ p, t j = .Snake p none) → l.getLast? = some j := by
  induction hc with
  | single pr i hb ht =>
    intro j hj _
    rw [List.mem_singleton] at hj
    subst hj; rfl
  | cons pr i d j' l hb ht hstep hrest ih =>
    intro k hk hkt
    rcases List.mem_cons.mp hk with hk | hk
    · subst hk
      rcases hkt with ⟨p, hp⟩
      rw [ht] at hp
      simp at hp
    · rw [getLast?_cons_ne i hrest.ne_nil]
      exact ih k hk hkt

theorem prev_some (hc : ChainT t w h pr i l) :
    ∀ r, pr = some r → ∀ k ∈ l, ∃ d q, t k = .Snake (some d) q := by
  induction hc with
  | single pr i hb ht =>
    intro r hr k hk
    rw [List.mem_singleton] at hk
    subst hk; subst hr
    exact ⟨r, none, ht⟩
  | cons pr i d j l hb ht hstep hrest ih =>
    intro r hr k hk
    rcases List.mem_cons.mp hk with hk | hk
    · subst hk; subst hr; exact ⟨r, some d, ht⟩
    · exact ih d.reverse rfl k hk

theorem prev_none_first (hc : ChainT t w h none i l) :
    ∀ j ∈ l, (∃ q, t j = .Snake none q) → j = i := by
  intro k hk hkt
  cases hc with
  | single pr2 i2 hb ht =>
    simpa using hk
  | cons pr2 i2 d j' l' hb ht hstep hrest =>
    rcases List.mem_cons.mp hk with hk | hk
    · exact hk
    · exfalso
      obtain ⟨dd, q, hq⟩ := hrest.prev_some d.reverse rfl k hk
      rcases hkt with ⟨q', hq'⟩
      rw [hq'] at hq
      simp at hq

/-- A chain is unaffected by grid changes outside its cells. -/
theorem congr_tiles (hc : ChainT t w h pr i l) (ht : ∀ j ∈ l, t' j = t j) :
    ChainT t' w h pr i l := by
  induction hc with
  | single pr i hb htl =>
    exact .single pr i hb (by rw [ht i (List.mem_singleton_self i), htl])
  | cons pr i d j l hb htl hstep hrest ih =>
    exact .cons pr i d j l hb (by rw [ht i (List.mem_cons_self i l), htl])
      hstep (ih (fun k hk => ht k (List.mem_cons_of_mem i hk)))

/-- Head-extension surgery: rewrite the old head cell's `next` from `none`
to `some dir`, write the cell one `dir`-step beyond it as the new head, and
the chain grows by that cell at its head end. -/
theorem snoc {hd nh : TileIndex} {dir : Direction}
    (hhd : ∀ p, t hd = .Snake p none → t' hd = .Snake p (some dir))
    (hstep : add_dir_to_index w h hd dir = nh)
    (hnh : t' nh = .Snake (some dir.reverse) none)
    (hnhb : InB w h nh)
    (hc : ChainT t w h pr i l) :
    l.Nodup → l.getLast? = some hd →
    (∀ q ∈ l, q ≠ hd → t' q = t q) →
    ChainT t' w h pr i (l ++ [nh]) := by
  induction hc with
  | single pr i hb ht =>
    intro _ hlast _
    have hi : i = hd := by simpa using hlast
    subst hi
    exact .cons pr i dir nh [nh] hb (hhd pr ht) hstep (.single _ nh hnhb hnh)
  | cons pr i d j l hb ht hstep' hrest ih =>
    intro hnd hlast hframe
    have hlne : l ≠ [] := hrest.ne_nil
    have hl2 : l.getLast? = some hd := by
      rw [getLast?_cons_ne i hlne] at hlast; exact hlast
    have hdmem : hd ∈ l := getLast?_mem_list hl2
    have hine : i ≠ hd := by
      intro he; subst he
      exact (List.nodup_cons.mp hnd).1 hdmem
    refine .cons pr i d j (l ++ [nh]) hb ?_ hstep' ?_
    · rw [hframe i (List.mem_cons_self i l) hine, ht]
    · exact ih (List.nodup_cons.mp hnd).2 hl2
        (fun q hq hqne => hframe q (List.mem_cons_of_mem i hq) hqne)

/-- Walking `prev` links backwards: along the chain, each cell's `prev`
link steps back to its predecessor. -/
theorem prev_chain (hc : ChainT t w h pr i l) :
    List.Chain' (fun a b => ∃ d q, t b = .Snake (some d) q ∧
      add_dir_to_index w h b d = a) l := by
  induction hc with
  | single _ _ _ _ => simp
  | cons pr i d j l hb ht hstep hrest ih =>
    refine List.chain'_cons'.mpr ⟨?_, ih⟩
    intro y hy
    rw [hrest.head_eq] at hy
    have hyj : j = y := by simpa using hy
    subst hyj
    obtain ⟨q, hq, _⟩ := hrest.first_tile
    refine ⟨d.reverse, q, hq, ?_⟩
    rw [← hstep]
    exact add_dir_reverse hb d

end ChainT

/-! ### Evaluating the tiles of a fresh state -/

theorem swapFW_eq_snake {v : Tile} {p q : Option Direction}
    (hv : swapFW v = .Snake p q) : v = .Snake p q := by
  by_cases h1 : v = Tile.Floor
  · subst h1; simp [swapFW] at hv
  · by_cases h2 : v = Tile.Wall
    · subst h2; simp [swapFW] at hv
    · simp only [swapFW, if_neg h1, if_neg h2] at hv
      exact hv

theorem swapFW_eq_food {v : Tile} (hv : swapFW v = Tile.Food) : v = Tile.Food := by
  by_cases h1 : v = Tile.Floor
  · subst h1; simp [swapFW] at hv
  · by_cases h2 : v = Tile.Wall
    · subst h2; simp [swapFW] at hv
    · simp only [swapFW, if_neg h1, if_neg h2] at hv
      exact hv

theorem swapFW_iter_snake {n : Nat} {v : Tile} {p q : Option Direction}
    (hv : swapFW^[n] v = .Snake p q) : v = .Snake p q := by
  induction n generalizing v with
  | zero => simpa using hv
  | succ k ih =>
    rw [Function.iterate_succ_apply] at hv
    exact swapFW_eq_snake (ih hv)

theorem swapFW_iter_food {n : Nat} {v : Tile} (hv : swapFW^[n] v = Tile.Food) :
    v = Tile.Food := by
  induction n generalizing v with
  | zero => simpa using hv
  | succ k ih =>
    rw [Function.iterate_succ_apply] at hv
    exact swapFW_eq_food (ih hv)

theorem swapFW_iter_fix {v : Tile} (hv : swapFW v = v) (n : Nat) : swapFW^[n] v = v := by
  induction n with
  | zero => rfl
  | succ k ih => rw [Function.iterate_succ_apply, hv, ih]

theorem swapFW_snake_fix (p q : Option Direction) :
    swapFW (.Snake p q) = .Snake p q := by simp [swapFW]

/-- The grid built by `new` before food placement, evaluated pointwise:
each cell is its pre-wall value (the three snake segments on the all-floor
grid) swapped Floor↔Wall once per occurrence in the border sweep. -/
theorem newPreFood_tiles (w h hs : Nat) (i : TileIndex) :
    (newPreFood w h hs).tiles i =
      swapFW^[(wallIdxs w h).count i]
        (if i = ((3 : Nat), (5 : Nat)) then Tile.Snake (some .Left) none
         else if i = ((3 : Nat), (4 : Nat)) then Tile.Snake (some .Left) (some .Right)
         else if i = ((3 : Nat), (3 : Nat)) then Tile.Snake none (some .Right)
         else Tile.Floor) := by
  show applySwaps _ (wallIdxs w h) i = _
  rw [applySwaps_apply]
  rfl

theorem new_tiles (w h hs : Nat) (fi i : TileIndex) :
    (new w h hs fi).tiles i =
      if i = fi then Tile.Food else (newPreFood w h hs).tiles i := rfl

/-! ### The inductive invariant and reachability -/

/-- The invariant carried by every state produced by `new` and `update`:
a duplicate-free tail-to-head chain of length at least 3 whose cells are
exactly the Snake cells of the grid and whose endpoints are the cached
tail/head indices, plus a unique in-bounds Food cell. -/
def Inv (s : GameState) : Prop :=
  (∃ l : List TileIndex,
    ChainT s.tiles s.level_width s.level_height none s.snake_tail_idx l ∧
    l.getLast? = some s.snake_head_idx ∧
    l.Nodup ∧
    (∀ i p q, s.tiles i = .Snake p q → i ∈ l) ∧
    3 ≤ l.length) ∧
  (∃ fp : TileIndex, InB s.level_width s.level_height fp ∧
    ∀ i, s.tiles i = Tile.Food ↔ i = fp)

/-- The eat branch is taken on this tick. -/
def eatsAt (s : GameState) (input : Option Direction) : Prop :=
  s.tiles (add_dir_to_index s.level_width s.level_height s.snake_head_idx
    (effDir s input)) = Tile.Food

/-- Postcondition of the `spawn_food` rejection loop when it runs inside the
eat branch of `update`: the loop draws in-bounds indices until one holds
`Floor` on the grid as it stands after the two head-move writes; since those
writes store Snake tiles, the chosen index is in bounds, distinct from both
head cells, and held `Floor` before the call. -/
def updateFoodOk (s : GameState) (input : Option Direction) (fi : TileIndex) : Prop :=
  InB s.level_width s.level_height fi ∧ fi ≠ s.snake_head_idx ∧
  fi ≠ add_dir_to_index s.level_width s.level_height s.snake_head_idx (effDir s input) ∧
  s.tiles fi = Tile.Floor

/-- States produced by `new` and mutated only by successful `update` calls.
`new` requires `6 ≤ w` and `4 ≤ h` because the Rust constructor indexes the
array at `(3,3)`–`(3,5)` (head column 5) and would panic on smaller grids;
the food-index side conditions are the `spawn_food` loop postconditions (in
`new` the loop runs on the grid `newPreFood` builds; in `update` it runs
only when the eat branch is taken). -/
inductive Reachable : GameState → Prop where
  | init (w h hs : Nat) (fi : TileIndex) :
      6 ≤ w → 4 ≤ h → InB w h fi → (newPreFood w h hs).tiles fi = Tile.Floor →
      Reachable (new w h hs fi)
  | step (s s' : GameState) (input : Option Direction) (fi : TileIndex) :
      Reachable s → (s.snake_alive = true → eatsAt s input → updateFoodOk s input fi) →
      update s input fi = .ok s' → Reachable s'

/-- The invariant holds for a freshly constructed state. -/
theorem inv_new (w h hs : Nat) (fi : TileIndex) (hw : 6 ≤ w) (hh : 4 ≤ h)
    (hfb : InB w h fi) (hfi : (newPreFood w h hs).tiles fi = Tile.Floor) :
    Inv (new w h hs fi) := by
  have hpre33 : (newPreFood w h hs).tiles ((3 : Nat), (3 : Nat)) =
      .Snake none (some .Right) := by
    rw [newPreFood_tiles, if_neg (by decide), if_neg (by decide), if_pos rfl]
    exact swapFW_iter_fix (swapFW_snake_fix _ _) _
  have hpre34 : (newPreFood w h hs).tiles ((3 : Nat), (4 : Nat)) =
      .Snake (some .Left) (some .Right) := by
    rw [newPreFood_tiles, if_neg (by decide), if_pos rfl]
    exact swapFW_iter_fix (swapFW_snake_fix _ _) _
  have hpre35 : (newPreFood w h hs).tiles ((3 : Nat), (5 : Nat)) =
      .Snake (some .Left) none := by
    rw [newPreFood_tiles, if_pos rfl]
    exact swapFW_iter_fix (swapFW_snake_fix _ _) _
  have hne : ∀ j : TileIndex, (newPreFood w h hs).tiles j ≠ Tile.Floor → j ≠ fi := by
    intro j hj he
    subst he
    exact hj hfi
  have hne33 : ((3 : Nat), (3 : Nat)) ≠ fi := hne _ (by rw [hpre33]; intro hc; cases hc)
  have hne34 : ((3 : Nat), (4 : Nat)) ≠ fi := hne _ (by rw [hpre34]; intro hc; cases hc)
  have hne35 : ((3 : Nat), (5 : Nat)) ≠ fi := hne _ (by rw [hpre35]; intro hc; cases hc)
  have h33 : (new w h hs fi).tiles ((3 : Nat), (3 : Nat)) = .Snake none (some .Right) := by
    rw [new_tiles, if_neg hne33, hpre33]
  have h34 : (new w h hs fi).tiles ((3 : Nat), (4 : Nat)) =
      .Snake (some .Left) (some .Right) := by
    rw [new_tiles, if_neg hne34, hpre34]
  have h35 : (new w h hs fi).tiles ((3 : Nat), (5 : Nat)) = .Snake (some .Left) none := by
    rw [new_tiles, if_neg hne35, hpre35]
  have hstep34 : add_dir_to_index w h ((3 : Nat), (3 : Nat)) .Right =
      ((3 : Nat), (4 : Nat)) := by
    show ((3 : Nat), (3 + 1) % w) = ((3 : Nat), (4 : Nat))
    rw [Nat.mod_eq_of_lt (by omega)]
  have hstep35 : add_dir_to_index w h ((3 : Nat), (4 : Nat)) .Right =
      ((3 : Nat), (5 : Nat)) := by
    show ((3 : Nat), (4 + 1) % w) = ((3 : Nat), (5 : Nat))
    rw [Nat.mod_eq_of_lt (by omega)]
  constructor
  · refine ⟨[((3 : Nat), (3 : Nat)), ((3 : Nat), (4 : Nat)), ((3 : Nat), (5 : Nat))],
      ?_, by rfl, by decide, ?_, by decide⟩
    · refine ChainT.cons none _ .Right _ _
        ⟨show (3 : Nat) < h by omega, show (3 : Nat) < w by omega⟩ h33 hstep34 ?_
      refine ChainT.cons _ _ .Right _ _
        ⟨show (3 : Nat) < h by omega, show (4 : Nat) < w by omega⟩ h34 hstep35 ?_
      exact ChainT.single _ _
        ⟨show (3 : Nat) < h by omega, show (5 : Nat) < w by omega⟩ h35
    · intro i p q hi
      rw [new_tiles] at hi
      by_cases hif : i = fi
      · rw [if_pos hif] at hi; cases hi
      · rw [if_neg hif, newPreFood_tiles] at hi
        have hbase := swapFW_iter_snake hi
        by_cases h5 : i = ((3 : Nat), (5 : Nat))
        · subst h5; simp
        · rw [if_neg h5] at hbase
          by_cases h4 : i = ((3 : Nat), (4 : Nat))
          · subst h4; simp
          · rw [if_neg h4] at hbase
            by_cases h3 : i = ((3 : Nat), (3 : Nat))
            · subst h3; simp
            · rw [if_neg h3] at hbase; cases hbase
  · refine ⟨fi, hfb, fun i => ⟨?_, ?_⟩⟩
    · intro hFood
      rw [new_tiles] at hFood
      by_cases hif : i = fi
      · exact hif
      · exfalso
        rw [if_neg hif, newPreFood_tiles] at hFood
        have hbase := swapFW_iter_food hFood
        by_cases h5 : i = ((3 : Nat), (5 : Nat))
        · rw [if_pos h5] at hbase; cases hbase
        · rw [if_neg h5] at hbase
          by_cases h4 : i = ((3 : Nat), (4 : Nat))
          · rw [if_pos h4] at hbase; cases hbase
          · rw [if_neg h4] at hbase
            by_cases h3 : i = ((3 : Nat), (3 : Nat))
            · rw [if_pos h3] at hbase; cases hbase
            · rw [if_neg h3] at hbase; cases hbase
    · intro he
      subst he
      rw [new_tiles, if_pos rfl]

/-! ### Preservation of the invariant by `update` -/

theorem setTile_ne (t : TileIndex → Tile) {i j : TileIndex} (v : Tile) (h : j ≠ i) :
    setTile t i v j = t j := if_neg h

theorem setTile_eq (t : TileIndex → Tile) (i : TileIndex) (v : Tile) :
    setTile t i v i = v := if_pos rfl

/-! ### Preservation of the invariant by `update` -/

theorem get_snake_prev_ok {t : TileIndex → Tile} {i : TileIndex} {p : Direction}
    (h : get_snake_prev t i = .ok p) : ∃ q, t i = .Snake (some p) q := by
  unfold get_snake_prev at h
  rcases ht : t i with _ | _ | _ | ⟨pr, nx⟩ <;> rw [ht] at h
  · cases h
  · cases h
  · cases h
  · rcases pr with _ | pp
    · cases h
    · simp only [Except.ok.injEq] at h
      subst h
      exact ⟨nx, rfl⟩

theorem get_snake_next_ok {t : TileIndex → Tile} {i : TileIndex} {n : Direction}
    (h : get_snake_next t i = .ok n) : ∃ p, t i = .Snake p (some n) := by
  unfold get_snake_next at h
  rcases ht : t i with _ | _ | _ | ⟨pr, nx⟩ <;> rw [ht] at h
  · cases h
  · cases h
  · cases h
  · rcases nx with _ | nn
    · cases h
    · simp only [Except.ok.injEq] at h
      subst h
      exact ⟨pr, rfl⟩

theorem head_ne_last_of_nodup {α : Type _} {l : List α} {a b : α}
    (hnd : l.Nodup) (hh : l.head? = some a) (hl : l.getLast? = some b)
    (hlen : 2 ≤ l.length) : a ≠ b := by
  cases l with
  | nil => cases hh
  | cons x xs =>
    cases xs with
    | nil => simp at hlen
    | cons y ys =>
      have hax : x = a := by
        simp only [List.head?_cons, Option.some.injEq] at hh
        exact hh
      rw [List.getLast?_cons_cons] at hl
      have hbm : b ∈ y :: ys := getLast?_mem_list hl
      intro he
      have hx : x ∈ y :: ys := by rw [hax, he]; exact hbm
      exact (List.nodup_cons.mp hnd).1 hx

/-- Assemble `Inv` from the explicit values of the relevant fields. -/
theorem inv_of_fields (s' : GameState) (w h : Nat) (t : TileIndex → Tile)
    (tl hd : TileIndex)
    (hW : s'.level_width = w) (hH : s'.level_height = h) (hT : s'.tiles = t)
    (hTl : s'.snake_tail_idx = tl) (hHd : s'.snake_head_idx = hd)
    (hchain : ∃ l, ChainT t w h none tl l ∧ l.getLast? = some hd ∧ l.Nodup ∧
      (∀ i p q, t i = .Snake p q → i ∈ l) ∧ 3 ≤ l.length)
    (hfood : ∃ fp, InB w h fp ∧ ∀ i, t i = Tile.Food ↔ i = fp) : Inv s' := by
  refine ⟨?_, ?_⟩
  · rw [hW, hH, hT, hTl, hHd]; exact hchain
  · rw [hW, hH, hT]; exact hfood

/-- Invariant preservation, eat branch. -/
theorem inv_update_eat (s s' : GameState) (input : Option Direction) (fi : TileIndex)
    (hInv : Inv s) (ha : s.snake_alive = true)
    (hhit : s.tiles (add_dir_to_index s.level_width s.level_height s.snake_head_idx
      (effDir s input)) = Tile.Food)
    (hok : updateFoodOk s input fi)
    (h : update s input fi = .ok s') : Inv s' := by
  obtain ⟨⟨l, hc, hlast, hnd, hcover, hlen⟩, ⟨fp, hfpb, hfp⟩⟩ := hInv
  obtain ⟨hfib, hfi_hd, hfi_nh, hfi_floor⟩ := hok
  obtain ⟨hp, hgp, hs⟩ := update_eat_char s s' input fi ha hhit h
  obtain ⟨q0, hhd_tile0⟩ := get_snake_prev_ok hgp
  have hdmem : s.snake_head_idx ∈ l := getLast?_mem_list hlast
  obtain ⟨p2, hhd_tile1⟩ := hc.last_tile _ hlast
  have hq0 : q0 = none := by
    rw [hhd_tile0] at hhd_tile1
    simp only [Tile.Snake.injEq] at hhd_tile1
    exact hhd_tile1.2
  subst hq0
  have hhd_tile : s.tiles s.snake_head_idx = .Snake (some hp) none := hhd_tile0
  have hhd_ne_nh : s.snake_head_idx ≠
      add_dir_to_index s.level_width s.level_height s.snake_head_idx (effDir s input) := by
    intro he
    rw [← he, hhd_tile] at hhit
    cases hhit
  have hnh_not_mem : add_dir_to_index s.level_width s.level_height s.snake_head_idx
      (effDir s input) ∉ l := by
    intro hmem
    obtain ⟨⟨p3, q3, ht3⟩, _⟩ := hc.mem_snake _ hmem
    rw [hhit] at ht3
    cases ht3
  have hfi_not_mem : fi ∉ l := by
    intro hmem
    obtain ⟨⟨p3, q3, ht3⟩, _⟩ := hc.mem_snake _ hmem
    rw [hfi_floor] at ht3
    cases ht3
  have hnhb : InB s.level_width s.level_height
      (add_dir_to_index s.level_width s.level_height s.snake_head_idx (effDir s input)) :=
    add_dir_inb (hc.mem_snake _ hdmem).2 _
  refine inv_of_fields s' s.level_width s.level_height
    (setTile (setTile (setTile s.tiles s.snake_head_idx
        (.Snake (some hp) (some (effDir s input))))
      (add_dir_to_index s.level_width s.level_height s.snake_head_idx (effDir s input))
      (.Snake (some (effDir s input).reverse) none)) fi Tile.Food)
    s.snake_tail_idx
    (add_dir_to_index s.level_width s.level_height s.snake_head_idx (effDir s input))
    (by rw [hs]) (by rw [hs]) (by rw [hs]) (by rw [hs]) (by rw [hs]) ?_ ?_
  · refine ⟨l ++ [add_dir_to_index s.level_width s.level_height s.snake_head_idx
        (effDir s input)], ?_, ?_, ?_, ?_, ?_⟩
    · refine ChainT.snoc ?_ rfl ?_ hnhb hc hnd hlast ?_
      · intro p3 hp3
        rw [hhd_tile] at hp3
        injection hp3 with e1 e2
        subst e1
        rw [setTile_ne _ _ (Ne.symm hfi_hd), setTile_ne _ _ hhd_ne_nh, setTile_eq]
      · rw [setTile_ne _ _ (Ne.symm hfi_nh), setTile_eq]
      · intro q2 hq2 hq2ne
        obtain ⟨⟨p3, q3, ht3⟩, _⟩ := hc.mem_snake _ hq2
        have hq2fi : q2 ≠ fi := by
          intro he; rw [he, hfi_floor] at ht3; cases ht3
        have hq2nh : q2 ≠ add_dir_to_index s.level_width s.level_height
            s.snake_head_idx (effDir s input) := by
          intro he; rw [he, hhit] at ht3; cases ht3
        rw [setTile_ne _ _ hq2fi, setTile_ne _ _ hq2nh, setTile_ne _ _ hq2ne]
    · exact List.getLast?_concat _
    · rw [List.nodup_append]
      refine ⟨hnd, List.nodup_singleton _, ?_⟩
      intro a ha1 ha2
      rw [List.mem_singleton] at ha2
      subst ha2
      exact hnh_not_mem ha1
    · intro i p3 q3 hi
      by_cases hifi : i = fi
      · rw [hifi, setTile_eq] at hi; cases hi
      · rw [setTile_ne _ _ hifi] at hi
        by_cases hinh : i = add_dir_to_index s.level_width s.level_height
            s.snake_head_idx (effDir s input)
        · subst hinh
          exact List.mem_append_right _ (List.mem_singleton_self _)
        · rw [setTile_ne _ _ hinh] at hi
          by_cases hihd : i = s.snake_head_idx
          · subst hihd
            exact List.mem_append_left _ hdmem
          · rw [setTile_ne _ _ hihd] at hi
            exact List.mem_append_left _ (hcover i p3 q3 hi)
    · rw [List.length_append]
      simp only [List.length_singleton]
      omega
  · refine ⟨fi, hfib, fun i => ⟨?_, ?_⟩⟩
    · intro hiFood
      by_cases hifi : i = fi
      · exact hifi
      · exfalso
        rw [setTile_ne _ _ hifi] at hiFood
        by_cases hinh : i = add_dir_to_index s.level_width s.level_height
            s.snake_head_idx (effDir s input)
        · rw [hinh, setTile_eq] at hiFood; cases hiFood
        · rw [setTile_ne _ _ hinh] at hiFood
          by_cases hihd : i = s.snake_head_idx
          · rw [hihd, setTile_eq] at hiFood; cases hiFood
          · rw [setTile_ne _ _ hihd] at hiFood
            have hifp : i = fp := (hfp i).mp hiFood
            have hnhfp : add_dir_to_index s.level_width s.level_height
                s.snake_head_idx (effDir s input) = fp := (hfp _).mp hhit
            exact hinh (hifp.trans hnhfp.symm)
    · intro he
      subst he
      rw [setTile_eq]

/-- Invariant preservation, normal-move branch. -/
theorem inv_update_move (s s' : GameState) (input : Option Direction) (fi : TileIndex)
    (hInv : Inv s) (ha : s.snake_alive = true)
    (hhit : s.tiles (add_dir_to_index s.level_width s.level_height s.snake_head_idx
      (effDir s input)) = Tile.Floor)
    (h : update s input fi = .ok s') : Inv s' := by
  obtain ⟨⟨l, hc, hlast, hnd, hcover, hlen⟩, ⟨fp, hfpb, hfp⟩⟩ := hInv
  obtain ⟨d0, hp, ntn, hgn, hgp, hgn2, hs⟩ := update_move_char s s' input fi ha hhit h
  obtain ⟨q0, hhd_tile0⟩ := get_snake_prev_ok hgp
  have hdmem : s.snake_head_idx ∈ l := getLast?_mem_list hlast
  have hbhd : InB s.level_width s.level_height s.snake_head_idx := (hc.mem_snake _ hdmem).2
  obtain ⟨p2, hhd_tile1⟩ := hc.last_tile _ hlast
  have hq0 : q0 = none := by
    rw [hhd_tile0] at hhd_tile1
    simp only [Tile.Snake.injEq] at hhd_tile1
    exact hhd_tile1.2
  subst hq0
  have hhd_tile : s.tiles s.snake_head_idx = .Snake (some hp) none := hhd_tile0
  obtain ⟨qt, htl_tile0, hbtl⟩ := hc.first_tile
  obtain ⟨pt, htl_tile1⟩ := get_snake_next_ok hgn
  have hqt : qt = some d0 := by
    rw [htl_tile0] at htl_tile1
    simp only [Tile.Snake.injEq] at htl_tile1
    exact htl_tile1.2
  subst hqt
  have htl_tile : s.tiles s.snake_tail_idx = .Snake none (some d0) := htl_tile0
  have hnh_not_mem : add_dir_to_index s.level_width s.level_height s.snake_head_idx
      (effDir s input) ∉ l := by
    intro hmem
    obtain ⟨⟨p3, q3, ht3⟩, _⟩ := hc.mem_snake _ hmem
    rw [hhit] at ht3
    cases ht3
  have htl_ne_hd : s.snake_tail_idx ≠ s.snake_head_idx :=
    head_ne_last_of_nodup hnd hc.head_eq hlast (by omega)
  have hnhb : InB s.level_width s.level_height
      (add_dir_to_index s.level_width s.level_height s.snake_head_idx (effDir s input)) :=
    add_dir_inb hbhd _
  have hhd_ne_nh : s.snake_head_idx ≠ add_dir_to_index s.level_width s.level_height
      s.snake_head_idx (effDir s input) := by
    intro he
    rw [← he, hhd_tile] at hhit
    cases hhit
  have htl_ne_nh : s.snake_tail_idx ≠ add_dir_to_index s.level_width s.level_height
      s.snake_head_idx (effDir s input) := by
    intro he
    rw [← he, htl_tile] at hhit
    cases hhit
  have hfpFood : s.tiles fp = Tile.Food := (hfp fp).mpr rfl
  have hfp_tl : fp ≠ s.snake_tail_idx := by
    intro he; rw [he, htl_tile] at hfpFood; cases hfpFood
  have hfp_hd : fp ≠ s.snake_head_idx := by
    intro he; rw [he, hhd_tile] at hfpFood; cases hfpFood
  have hfp_nh : fp ≠ add_dir_to_index s.level_width s.level_height s.snake_head_idx
      (effDir s input) := by
    intro he; rw [he, hhit] at hfpFood; cases hfpFood
  cases hc with
  | single pr2 i2 hb2 ht2 =>
    simp at hlen
  | cons pr2 i2 d j m hb2 ht2 hstep2 hrest =>
    have e := htl_tile.symm.trans ht2
    injection e with e1 e2
    injection e2 with e3
    subst e3
    cases hrest with
    | single pr3 i3 hb3 ht3 =>
      simp at hlen
    | cons pr3 i3 d1 j2 m2 hb3 ht3 hstep3 hrest2 =>
      have hm2ne : m2 ≠ [] := hrest2.ne_nil
      have hj_tl : j ≠ s.snake_tail_idx := by
        intro he
        have hni : s.snake_tail_idx ∉ j :: m2 := (List.nodup_cons.mp hnd).1
        apply hni
        rw [← he]
        exact List.mem_cons_self _ _
      have hj_hd : j ≠ s.snake_head_idx := by
        intro he
        rw [he, hhd_tile] at ht3
        injection ht3 with f1 f2
        cases f2
      have hj_nh : j ≠ add_dir_to_index s.level_width s.level_height s.snake_head_idx
          (effDir s input) := by
        intro he
        rw [he, hhit] at ht3
        cases ht3
      have hfp_j : fp ≠ j := by
        intro he; rw [he, ht3] at hfpFood; cases hfpFood
      rw [hstep2] at hgn2 hs
      have hT3j : setTile (setTile (setTile s.tiles s.snake_head_idx
            (.Snake (some hp) (some (effDir s input))))
          (add_dir_to_index s.level_width s.level_height s.snake_head_idx (effDir s input))
          (.Snake (some (effDir s input).reverse) none))
          s.snake_tail_idx Tile.Floor j = .Snake (some d0.reverse) (some d1) := by
        rw [setTile_ne _ _ hj_tl, setTile_ne _ _ hj_nh, setTile_ne _ _ hj_hd]
        exact ht3
      unfold get_snake_next at hgn2
      rw [hT3j] at hgn2
      simp only [Except.ok.injEq] at hgn2
      subst hgn2
      have hlast2 : m2.getLast? = some s.snake_head_idx := by
        rw [getLast?_cons_ne _ (by simp), getLast?_cons_ne _ hm2ne] at hlast
        exact hlast
      have hnd1 : (j :: m2).Nodup := (List.nodup_cons.mp hnd).2
      have hnd2 : m2.Nodup := (List.nodup_cons.mp hnd1).2
      have hj_not_m2 : j ∉ m2 := (List.nodup_cons.mp hnd1).1
      have htl_not_jm2 : s.snake_tail_idx ∉ j :: m2 := (List.nodup_cons.mp hnd).1
      have hinner : ChainT (setTile (setTile (setTile (setTile s.tiles s.snake_head_idx
            (.Snake (some hp) (some (effDir s input))))
          (add_dir_to_index s.level_width s.level_height s.snake_head_idx (effDir s input))
          (.Snake (some (effDir s input).reverse) none))
          s.snake_tail_idx Tile.Floor) j (.Snake none (some d1)))
          s.level_width s.level_height (some d1.reverse) j2
          (m2 ++ [add_dir_to_index s.level_width s.level_height s.snake_head_idx
            (effDir s input)]) := by
        refine ChainT.snoc ?_ rfl ?_ hnhb hrest2 hnd2 hlast2 ?_
        · intro p3 hp3
          rw [hhd_tile] at hp3
          injection hp3 with e4 e5
          subst e4
          rw [setTile_ne _ _ (Ne.symm hj_hd), setTile_ne _ _ (Ne.symm htl_ne_hd),
              setTile_ne _ _ hhd_ne_nh, setTile_eq]
        · rw [setTile_ne _ _ (Ne.symm hj_nh), setTile_ne _ _ (Ne.symm htl_ne_nh), setTile_eq]
        · intro q2 hq2 hq2ne
          obtain ⟨⟨p3, q3, ht4⟩, _⟩ := hrest2.mem_snake _ hq2
          have hq2_j : q2 ≠ j := fun he => hj_not_m2 (he ▸ hq2)
          have hq2_tl : q2 ≠ s.snake_tail_idx :=
            fun he => htl_not_jm2 (he ▸ (List.mem_cons_of_mem _ hq2))
          have hq2_nh : q2 ≠ add_dir_to_index s.level_width s.level_height
              s.snake_head_idx (effDir s input) := by
            intro he; rw [he, hhit] at ht4; cases ht4
          rw [setTile_ne _ _ hq2_j, setTile_ne _ _ hq2_tl, setTile_ne _ _ hq2_nh,
              setTile_ne _ _ hq2ne]
      refine inv_of_fields s' s.level_width s.level_height
        (setTile (setTile (setTile (setTile s.tiles s.snake_head_idx
            (.Snake (some hp) (some (effDir s input))))
          (add_dir_to_index s.level_width s.level_height s.snake_head_idx (effDir s input))
          (.Snake (some (effDir s input).reverse) none))
          s.snake_tail_idx Tile.Floor) j (.Snake none (some d1)))
        j
        (add_dir_to_index s.level_width s.level_height s.snake_head_idx (effDir s input))
        (by rw [hs]) (by rw [hs]) (by rw [hs]) (by rw [hs]) (by rw [hs]) ?_ ?_
      · refine ⟨(j :: m2) ++ [add_dir_to_index s.level_width s.level_height
            s.snake_head_idx (effDir s input)], ?_, List.getLast?_concat _, ?_, ?_, ?_⟩
        · exact ChainT.cons none j d1 j2 _ hb3 (setTile_eq _ _ _) hstep3 hinner
        · rw [List.nodup_append]
          refine ⟨hnd1, List.nodup_singleton _, ?_⟩
          intro a ha1 ha2
          rw [List.mem_singleton] at ha2
          subst ha2
          exact hnh_not_mem (List.mem_cons_of_mem _ ha1)
        · intro i p3 q3 hi
          by_cases hij : i = j
          · subst hij
            exact List.mem_append_left _ (List.mem_cons_self _ _)
          · rw [setTile_ne _ _ hij] at hi
            by_cases hitl : i = s.snake_tail_idx
            · rw [hitl, setTile_eq] at hi
              cases hi
            · rw [setTile_ne _ _ hitl] at hi
              by_cases hinh : i = add_dir_to_index s.level_width s.level_height
                  s.snake_head_idx (effDir s input)
              · subst hinh
                exact List.mem_append_right _ (List.mem_singleton_self _)
              · rw [setTile_ne _ _ hinh] at hi
                by_cases hihd : i = s.snake_head_idx
                · subst hihd
                  rcases List.mem_cons.mp hdmem with he | he
                  · exact absurd he.symm htl_ne_hd
                  · exact List.mem_append_left _ he
                · rw [setTile_ne _ _ hihd] at hi
                  have hmem := hcover i p3 q3 hi
                  rcases List.mem_cons.mp hmem with he | he
                  · exact absurd he hitl
                  · exact List.mem_append_left _ he
        · rw [List.length_append]
          simp only [List.length_singleton, List.length_cons]
          simp only [List.length_cons] at hlen
          omega
      · refine ⟨fp, hfpb, fun i => ⟨?_, ?_⟩⟩
        · intro hiFood
          by_cases hij : i = j
          · rw [hij, setTile_eq] at hiFood; cases hiFood
          · rw [setTile_ne _ _ hij] at hiFood
            by_cases hitl : i = s.snake_tail_idx
            · rw [hitl, setTile_eq] at hiFood; cases hiFood
            · rw [setTile_ne _ _ hitl] at hiFood
              by_cases hinh : i = add_dir_to_index s.level_width s.level_height
                  s.snake_head_idx (effDir s input)
              · rw [hinh, setTile_eq] at hiFood; cases hiFood
              · rw [setTile_ne _ _ hinh] at hiFood
                by_cases hihd : i = s.snake_head_idx
                · rw [hihd, setTile_eq] at hiFood; cases hiFood
                · rw [setTile_ne _ _ hihd] at hiFood
                  exact (hfp i).mp hiFood
        · intro he
          subst he
          rw [setTile_ne _ _ hfp_j, setTile_ne _ _ hfp_tl, setTile_ne _ _ hfp_nh,
              setTile_ne _ _ hfp_hd]
          exact hfpFood

/-- Invariant preservation for any successful `update` call (with the
`spawn_food` loop postcondition assumed when the eat branch runs). -/
theorem inv_update (s s' : GameState) (input : Option Direction) (fi : TileIndex)
    (hInv : Inv s)
    (hfood : s.snake_alive = true → eatsAt s input → updateFoodOk s input fi)
    (h : update s input fi = .ok s') : Inv s' := by
  cases hal : s.snake_alive with
  | false =>
    rw [update_dead_noop s input fi hal] at h
    injection h with h2
    rw [← h2]
    exact hInv
  | true =>
    rcases hhit : s.tiles (add_dir_to_index s.level_width s.level_height s.snake_head_idx
        (effDir s input)) with _ | _ | _ | ⟨p, q⟩
    · exact inv_update_move s s' input fi hInv hal hhit h
    · obtain ⟨h1, h2⟩ := hInv
      have hs := update_death_char s s' input fi hal (Or.inl hhit) h
      exact inv_of_fields s' s.level_width s.level_height s.tiles s.snake_tail_idx
        s.snake_head_idx (by rw [hs]) (by rw [hs]) (by rw [hs]) (by rw [hs]) (by rw [hs])
        h1 h2
    · exact inv_update_eat s s' input fi hInv hal hhit (hfood hal hhit) h
    · obtain ⟨h1, h2⟩ := hInv
      have hs := update_death_char s s' input fi hal (Or.inr ⟨p, q, hhit⟩) h
      exact inv_of_fields s' s.level_width s.level_height s.tiles s.snake_tail_idx
        s.snake_head_idx (by rw [hs]) (by rw [hs]) (by rw [hs]) (by rw [hs]) (by rw [hs])
        h1 h2

/-- Every reachable state satisfies the invariant. -/
theorem inv_reachable (s : GameState) (hr : Reachable s) : Inv s := by
  induction hr with
  | init w h hsc fi hw hh hfb hfi => exact inv_new w h hsc fi hw hh hfb hfi
  | step s1 s2 input fi hr1 hfood hupd ih => exact inv_update s1 s2 input fi ih hfood hupd

/-! ### Error-freeness of `update` -/

/-- Shared helper: on a grid with both dimensions at least 2, a state whose
tail cell is `Snake(None, Some _)`, whose head cell is `Snake(Some _, None)`
and whose tail-successor cell is a Snake cell with a `Some` next link makes
`update` return `Ok`. -/
theorem update_ok_of_shapes (s : GameState) (input : Option Direction) (fi : TileIndex)
    (hw : 2 ≤ s.level_width) (hh : 2 ≤ s.level_height)
    (htl : ∃ d, s.tiles s.snake_tail_idx = .Snake none (some d))
    (hhd : ∃ p, s.tiles s.snake_head_idx = .Snake (some p) none)
    (hnt : ∀ d, s.tiles s.snake_tail_idx = .Snake none (some d) →
      ∃ p2 d2, s.tiles (add_dir_to_index s.level_width s.level_height s.snake_tail_idx d)
        = .Snake p2 (some d2)) :
    ∃ u, update s input fi = .ok u := by
  cases hal : s.snake_alive with
  | false => exact ⟨s, update_dead_noop s input fi hal⟩
  | true =>
    obtain ⟨d, htl⟩ := htl
    obtain ⟨p, hhd⟩ := hhd
    obtain ⟨p2, d2, hnt2⟩ := hnt d htl
    have hgn : get_snake_next s.tiles s.snake_tail_idx = .ok d := by
      unfold get_snake_next; rw [htl]
    have hgp : get_snake_prev s.tiles s.snake_head_idx = .ok p := by
      unfold get_snake_prev; rw [hhd]
    unfold update
    rw [if_neg (by simp [hal])]
    simp only []
    rw [hgn]
    rcases hhit : s.tiles (add_dir_to_index s.level_width s.level_height s.snake_head_idx
        (effDir s input)) with _ | _ | _ | ⟨p3, q3⟩
    · -- Floor: must also check the tail-advance read
      rw [hgp]
      have hnt_ne_tl : add_dir_to_index s.level_width s.level_height s.snake_tail_idx d ≠
          s.snake_tail_idx := add_dir_ne hw hh _ _
      have hnt_ne_nh : add_dir_to_index s.level_width s.level_height s.snake_tail_idx d ≠
          add_dir_to_index s.level_width s.level_height s.snake_head_idx
            (effDir s input) := by
        intro he
        rw [he, hhit] at hnt2
        cases hnt2
      have hnt_ne_hd : add_dir_to_index s.level_width s.level_height s.snake_tail_idx d ≠
          s.snake_head_idx := by
        intro he
        rw [he, hhd] at hnt2
        injection hnt2 with f1 f2
        cases f2
      have ht3 : setTile (setTile (setTile s.tiles s.snake_head_idx
            (.Snake (some p) (some (effDir s input))))
          (add_dir_to_index s.level_width s.level_height s.snake_head_idx (effDir s input))
          (.Snake (some (effDir s input).reverse) none))
          s.snake_tail_idx Tile.Floor
          (add_dir_to_index s.level_width s.level_height s.snake_tail_idx d) =
          .Snake p2 (some d2) := by
        rw [setTile_ne _ _ hnt_ne_tl, setTile_ne _ _ hnt_ne_nh, setTile_ne _ _ hnt_ne_hd]
        exact hnt2
      have hgn2 : get_snake_next (setTile (setTile (setTile s.tiles s.snake_head_idx
            (.Snake (some p) (some (effDir s input))))
          (add_dir_to_index s.level_width s.level_height s.snake_head_idx (effDir s input))
          (.Snake (some (effDir s input).reverse) none))
          s.snake_tail_idx Tile.Floor)
          (add_dir_to_index s.level_width s.level_height s.snake_tail_idx d) = .ok d2 := by
        unfold get_snake_next; rw [ht3]
      simp [hgp, hgn2]
    · exact ⟨_, rfl⟩
    · simp [hgp]
    · exact ⟨_, rfl⟩

/-- A degenerate state on a width-1 grid: the tail's next link `Left` wraps
back onto the tail itself.  It satisfies the three link-shape conditions,
yet `update` hits the `Err` branch of `get_snake_next` (the tail cell has
already been cleared to `Floor` when the new-tail read happens). -/
def gBad : GameState :=
  { level_width := 1
    level_height := 3
    tiles := fun i =>
      if i = (0, 0) then .Snake none (some .Left)
      else if i = (1, 0) then .Snake (some .Up) none
      else .Floor
    snake_head_idx := (1, 0)
    snake_tail_idx := (0, 0)
    snake_dir := .Down
    snake_alive := true
    score := 0
    highscore := 0 }

def isErr {ε α : Type _} : Except ε α → Bool
  | .error _ => true
  | .ok _ => false

/-- C10 counterexample: `gBad` satisfies the claim's chain-shape hypotheses
(tail `Snake(None, Some Left)`, head `Snake(Some Up, None)`, and the cell
reached by stepping the tail along its next link — the tail itself, by
width-1 wrap-around — is a Snake cell with a `Some` next link), is alive,
and yet `update` returns `Err`. -/
theorem update_err_despite_shapes :
    gBad.snake_alive = true ∧
    gBad.tiles gBad.snake_tail_idx = .Snake none (some .Left) ∧
    gBad.tiles gBad.snake_head_idx = .Snake (some .Up) none ∧
    gBad.tiles (add_dir_to_index gBad.level_width gBad.level_height gBad.snake_tail_idx
      .Left) = .Snake none (some .Left) ∧
    isErr (update gBad none (0, 0)) = true := by decide

/-- C10 (amended): with both grid dimensions at least 2 (ruling out the
width/height-1 wrap-around that makes the stepped tail cell coincide with
the tail itself), `update` never returns `Err` from a state whose tail cell
is `Snake(None, Some _)`, whose head cell is `Snake(Some _, None)` and whose
tail-successor cell is a Snake cell with a `Some` next link; an `Err`
result can arise only from a corrupted state. -/
theorem update_no_error (s : GameState) (input : Option Direction) (fi : TileIndex)
    (hw : 2 ≤ s.level_width) (hh : 2 ≤ s.level_height)
    (htl : ∃ d, s.tiles s.snake_tail_idx = .Snake none (some d))
    (hhd : ∃ p, s.tiles s.snake_head_idx = .Snake (some p) none)
    (hnt : ∀ d, s.tiles s.snake_tail_idx = .Snake none (some d) →
      ∃ p2 d2, s.tiles (add_dir_to_index s.level_width s.level_height s.snake_tail_idx d)
        = .Snake p2 (some d2)) :
    ∃ u, update s input fi = .ok u :=
  update_ok_of_shapes s input fi hw hh htl hhd hnt

theorem update_no_error_witness :
    (2 ≤ gWall.level_width ∧ 2 ≤ gWall.level_height) ∧
    (∃ u, update gWall (some .Up) (0, 0) = .ok u) := by
  refine ⟨⟨by decide, by decide⟩, ?_⟩
  refine update_no_error gWall (some .Up) (0, 0) (by decide) (by decide)
    ⟨.Right, rfl⟩ ⟨.Left, rfl⟩ ?_
  intro d hd
  have hdr : d = .Right := by
    injection (rfl : gWall.tiles gWall.snake_tail_idx =
      Tile.Snake none (some .Right)).symm.trans hd with e1 e2
    injection e2 with e3
    exact e3.symm
  subst hdr
  exact ⟨some .Left, .Right, rfl⟩

/-! ### Concrete 10×10 states for witnesses -/

/-- The 10×10 state of the spec scenarios, with `new`'s food spawned on the
free interior cell `(1,1)`. -/
def s10 : GameState := new 10 10 0 (1, 1)

/-- A 10×10 fresh state whose food happens to sit directly in front of the
head: `new` spawned it at `(3,6)`. -/
def s10F : GameState := new 10 10 0 (3, 6)

theorem preFloor11 : (newPreFood 10 10 0).tiles (1, 1) = Tile.Floor := by
  rw [newPreFood_tiles, if_neg (by decide), if_neg (by decide), if_neg (by decide),
      show (wallIdxs 10 10).count ((1 : Nat), (1 : Nat)) = 0 from by decide]
  rfl

theorem preFloor36 : (newPreFood 10 10 0).tiles (3, 6) = Tile.Floor := by
  rw [newPreFood_tiles, if_neg (by decide), if_neg (by decide), if_neg (by decide),
      show (wallIdxs 10 10).count ((3 : Nat), (6 : Nat)) = 0 from by decide]
  rfl

theorem s10_reachable : Reachable s10 :=
  Reachable.init 10 10 0 (1, 1) (by decide) (by decide) ⟨by decide, by decide⟩ preFloor11

theorem s10F_reachable : Reachable s10F :=
  Reachable.init 10 10 0 (3, 6) (by decide) (by decide) ⟨by decide, by decide⟩ preFloor36

/-! ### C1: the chain invariant for reachable states -/

/-- The chain properties the spec asserts of a live grid: a duplicate-free
tail-to-head list of cells linked by `next` steps (`ChainT`), containing
exactly the Snake-tagged cells; exactly one Snake cell has `next = None`
(the cached head index) and exactly one has `prev = None` (the cached tail
index); and walking `prev` links steps back along the same list. -/
def ChainProps (s : GameState) : Prop :=
  ∃ l : List TileIndex,
    l.head? = some s.snake_tail_idx ∧
    l.getLast? = some s.snake_head_idx ∧
    l.Nodup ∧
    ChainT s.tiles s.level_width s.level_height none s.snake_tail_idx l ∧
    (∀ i, (∃ p q, s.tiles i = .Snake p q) ↔ i ∈ l) ∧
    (∀ i, (∃ p, s.tiles i = .Snake p none) ↔ i = s.snake_head_idx) ∧
    (∀ i, (∃ q, s.tiles i = .Snake none q) ↔ i = s.snake_tail_idx) ∧
    List.Chain' (fun a b => ∃ d q, s.tiles b = .Snake (some d) q ∧
      add_dir_to_index s.level_width s.level_height b d = a) l

/-- C1: every state produced by `new` and mutated only by `update` calls
satisfies, while alive, the chain invariant: exactly one Snake cell with
`next = None` (at `snake_head_idx`), exactly one with `prev = None` (at
`snake_tail_idx`), and following `next` links from the tail visits every
Snake cell exactly once, ending at the head (and `prev` links walk back). -/
theorem chain_invariant (s : GameState) (hr : Reachable s)
    (_ha : s.snake_alive = true) : ChainProps s := by
  obtain ⟨⟨l, hc, hlast, hnd, hcover, hlen⟩, _⟩ := inv_reachable s hr
  refine ⟨l, hc.head_eq, hlast, hnd, hc, ?_, ?_, ?_, hc.prev_chain⟩
  · intro i
    constructor
    · rintro ⟨p, q, hpq⟩
      exact hcover i p q hpq
    · intro hmem
      exact (hc.mem_snake i hmem).1
  · intro i
    constructor
    · rintro ⟨p, hpq⟩
      have hmem : i ∈ l := hcover i p none hpq
      have hlast2 := hc.next_none_last i hmem ⟨p, hpq⟩
      rw [hlast] at hlast2
      injection hlast2 with e
      exact e.symm
    · intro he
      subst he
      exact hc.last_tile _ hlast
  · intro i
    constructor
    · rintro ⟨q, hq⟩
      exact hc.prev_none_first i (hcover i none q hq) ⟨q, hq⟩
    · intro he
      subst he
      obtain ⟨q2, ht, _⟩ := hc.first_tile
      exact ⟨q2, ht⟩

theorem chain_invariant_witness : s10.snake_alive = true ∧ ChainProps s10 :=
  ⟨rfl, chain_invariant s10 s10_reachable rfl⟩

/-! ### C7: food exclusivity -/

/-- C7: in every reachable state, while alive, the grid contains exactly
one Food tile and it lies in bounds; and `spawn_food` converts exactly the
(Floor) cell the rng loop chose, leaving all other cells unchanged — so a
Food tile never overwrites a Wall or Snake cell. -/
theorem food_exclusivity :
    (∀ s : GameState, Reachable s → s.snake_alive = true →
      ∃ fp, InB s.level_width s.level_height fp ∧
        ∀ i, s.tiles i = Tile.Food ↔ i = fp) ∧
    (∀ (s : GameState) (fi : TileIndex), s.tiles fi = Tile.Floor →
      (spawn_food s fi).tiles fi = Tile.Food ∧
      ∀ i, i ≠ fi → (spawn_food s fi).tiles i = s.tiles i) := by
  constructor
  · intro s hr _
    exact (inv_reachable s hr).2
  · intro s fi hfloor
    exact ⟨setTile_eq _ _ _, fun i hne => setTile_ne _ _ hne⟩

theorem food_exclusivity_witness :
    (∃ fp, InB s10.level_width s10.level_height fp ∧
      ∀ i, s10.tiles i = Tile.Food ↔ i = fp) ∧
    ((spawn_food gFloor (2, 2)).tiles (2, 2) = Tile.Food ∧
      ∀ i, i ≠ (2, 2) → (spawn_food gFloor (2, 2)).tiles i = gFloor.tiles i) :=
  ⟨food_exclusivity.1 s10 s10_reachable rfl, food_exclusivity.2 gFloor (2, 2) rfl⟩

/-! ### Pointwise tile values of the concrete 10×10 states -/

theorem s10_t33 : s10.tiles (3, 3) = .Snake none (some .Right) := by
  show (new 10 10 0 (1, 1)).tiles (3, 3) = _
  rw [new_tiles, if_neg (by decide), newPreFood_tiles, if_neg (by decide),
      if_neg (by decide), if_pos rfl,
      show (wallIdxs 10 10).count ((3 : Nat), (3 : Nat)) = 0 from by decide]
  rfl

theorem s10_t34 : s10.tiles (3, 4) = .Snake (some .Left) (some .Right) := by
  show (new 10 10 0 (1, 1)).tiles (3, 4) = _
  rw [new_tiles, if_neg (by decide), newPreFood_tiles, if_neg (by decide), if_pos rfl,
      show (wallIdxs 10 10).count ((3 : Nat), (4 : Nat)) = 0 from by decide]
  rfl

theorem s10_t35 : s10.tiles (3, 5) = .Snake (some .Left) none := by
  show (new 10 10 0 (1, 1)).tiles (3, 5) = _
  rw [new_tiles, if_neg (by decide), newPreFood_tiles, if_pos rfl,
      show (wallIdxs 10 10).count ((3 : Nat), (5 : Nat)) = 0 from by decide]
  rfl

theorem s10_t36 : s10.tiles (3, 6) = Tile.Floor := by
  show (new 10 10 0 (1, 1)).tiles (3, 6) = _
  rw [new_tiles, if_neg (by decide)]
  exact preFloor36

theorem s10F_t33 : s10F.tiles (3, 3) = .Snake none (some .Right) := by
  show (new 10 10 0 (3, 6)).tiles (3, 3) = _
  rw [new_tiles, if_neg (by decide), newPreFood_tiles, if_neg (by decide),
      if_neg (by decide), if_pos rfl,
      show (wallIdxs 10 10).count ((3 : Nat), (3 : Nat)) = 0 from by decide]
  rfl

theorem s10F_t34 : s10F.tiles (3, 4) = .Snake (some .Left) (some .Right) := by
  show (new 10 10 0 (3, 6)).tiles (3, 4) = _
  rw [new_tiles, if_neg (by decide), newPreFood_tiles, if_neg (by decide), if_pos rfl,
      show (wallIdxs 10 10).count ((3 : Nat), (4 : Nat)) = 0 from by decide]
  rfl

theorem s10F_t35 : s10F.tiles (3, 5) = .Snake (some .Left) none := by
  show (new 10 10 0 (3, 6)).tiles (3, 5) = _
  rw [new_tiles, if_neg (by decide), newPreFood_tiles, if_pos rfl,
      show (wallIdxs 10 10).count ((3 : Nat), (5 : Nat)) = 0 from by decide]
  rfl

theorem s10F_t36 : s10F.tiles (3, 6) = Tile.Food := by
  show (new 10 10 0 (3, 6)).tiles (3, 6) = _
  rw [new_tiles, if_pos rfl]

/-! ### C5: eating food grows the snake -/

/-- C5: on a reachable live state whose newly computed head cell holds
Food, with `fi` the index chosen by the spawn loop, a successful `update`
adds exactly 10 to the score, does not advance the tail (`snake_tail_idx`
and the old tail cell are untouched), and the newly spawned Food tile sits
on a cell that held Floor before the call; the snake grows by exactly one
segment: its tail-to-head chain becomes the old chain with the new head
cell appended. -/
theorem eat_grows_snake (s s' : GameState) (input : Option Direction) (fi : TileIndex)
    (hr : Reachable s) (ha : s.snake_alive = true)
    (hhit : s.tiles (add_dir_to_index s.level_width s.level_height s.snake_head_idx
      (effDir s input)) = Tile.Food)
    (hok : updateFoodOk s input fi)
    (h : update s input fi = .ok s') :
    s'.score = s.score + 10 ∧
    s'.snake_tail_idx = s.snake_tail_idx ∧
    s'.tiles s.snake_tail_idx = s.tiles s.snake_tail_idx ∧
    s.tiles fi = Tile.Floor ∧ s'.tiles fi = Tile.Food ∧
    (∃ l, ChainT s.tiles s.level_width s.level_height none s.snake_tail_idx l ∧
      ChainT s'.tiles s'.level_width s'.level_height none s'.snake_tail_idx
        (l ++ [add_dir_to_index s.level_width s.level_height s.snake_head_idx
          (effDir s input)])) := by
  obtain ⟨⟨l, hc, hlast, hnd, hcover, hlen⟩, _⟩ := inv_reachable s hr
  obtain ⟨hfib, hfi_hd, hfi_nh, hfi_floor⟩ := hok
  obtain ⟨hp, hgp, hs⟩ := update_eat_char s s' input fi ha hhit h
  obtain ⟨q0, hhd_tile0⟩ := get_snake_prev_ok hgp
  have hdmem : s.snake_head_idx ∈ l := getLast?_mem_list hlast
  obtain ⟨p2, hhd_tile1⟩ := hc.last_tile _ hlast
  have hq0 : q0 = none := by
    rw [hhd_tile0] at hhd_tile1
    simp only [Tile.Snake.injEq] at hhd_tile1
    exact hhd_tile1.2
  subst hq0
  have hhd_tile : s.tiles s.snake_head_idx = .Snake (some hp) none := hhd_tile0
  have hhd_ne_nh : s.snake_head_idx ≠ add_dir_to_index s.level_width s.level_height
      s.snake_head_idx (effDir s input) := by
    intro he; rw [← he, hhd_tile] at hhit; cases hhit
  have htl_ne_hd : s.snake_tail_idx ≠ s.snake_head_idx :=
    head_ne_last_of_nodup hnd hc.head_eq hlast (by omega)
  obtain ⟨qt, htl_tile, hbtl⟩ := hc.first_tile
  have htl_ne_nh : s.snake_tail_idx ≠ add_dir_to_index s.level_width s.level_height
      s.snake_head_idx (effDir s input) := by
    intro he; rw [← he, htl_tile] at hhit; cases hhit
  have htl_ne_fi : s.snake_tail_idx ≠ fi := by
    intro he; rw [he, hfi_floor] at htl_tile; cases htl_tile
  have hnhb : InB s.level_width s.level_height
      (add_dir_to_index s.level_width s.level_height s.snake_head_idx (effDir s input)) :=
    add_dir_inb (hc.mem_snake _ hdmem).2 _
  have hT : s'.tiles = setTile (setTile (setTile s.tiles s.snake_head_idx
      (.Snake (some hp) (some (effDir s input))))
    (add_dir_to_index s.level_width s.level_height s.snake_head_idx (effDir s input))
    (.Snake (some (effDir s input).reverse) none)) fi Tile.Food := by rw [hs]
  have hW : s'.level_width = s.level_width := by rw [hs]
  have hH : s'.level_height = s.level_height := by rw [hs]
  have hTl : s'.snake_tail_idx = s.snake_tail_idx := by rw [hs]
  refine ⟨by rw [hs], hTl, ?_, hfi_floor, ?_, ?_⟩
  · rw [hT, setTile_ne _ _ htl_ne_fi, setTile_ne _ _ htl_ne_nh,
        setTile_ne _ _ htl_ne_hd]
  · rw [hT, setTile_eq]
  · refine ⟨l, hc, ?_⟩
    rw [hT, hW, hH, hTl]
    refine ChainT.snoc ?_ rfl ?_ hnhb hc hnd hlast ?_
    · intro p3 hp3
      rw [hhd_tile] at hp3
      injection hp3 with e1 e2
      subst e1
      rw [setTile_ne _ _ (Ne.symm hfi_hd), setTile_ne _ _ hhd_ne_nh, setTile_eq]
    · rw [setTile_ne _ _ (Ne.symm hfi_nh), setTile_eq]
    · intro q2 hq2 hq2ne
      obtain ⟨⟨p3, q3, ht3⟩, _⟩ := hc.mem_snake _ hq2
      have hq2fi : q2 ≠ fi := by
        intro he; rw [he, hfi_floor] at ht3; cases ht3
      have hq2nh : q2 ≠ add_dir_to_index s.level_width s.level_height
          s.snake_head_idx (effDir s input) := by
        intro he; rw [he, hhit] at ht3; cases ht3
      rw [setTile_ne _ _ hq2fi, setTile_ne _ _ hq2nh, setTile_ne _ _ hq2ne]

theorem eat_grows_snake_witness :
    ∃ s', update s10F none (1, 1) = .ok s' ∧
      (s'.score = s10F.score + 10 ∧
       s'.snake_tail_idx = s10F.snake_tail_idx ∧
       s'.tiles s10F.snake_tail_idx = s10F.tiles s10F.snake_tail_idx ∧
       s10F.tiles (1, 1) = Tile.Floor ∧ s'.tiles (1, 1) = Tile.Food ∧
       (∃ l, ChainT s10F.tiles s10F.level_width s10F.level_height none
          s10F.snake_tail_idx l ∧
        ChainT s'.tiles s'.level_width s'.level_height none s'.snake_tail_idx
          (l ++ [add_dir_to_index s10F.level_width s10F.level_height
            s10F.snake_head_idx (effDir s10F none)]))) := by
  have hhit : s10F.tiles (add_dir_to_index s10F.level_width s10F.level_height
      s10F.snake_head_idx (effDir s10F none)) = Tile.Food := by
    rw [show add_dir_to_index s10F.level_width s10F.level_height s10F.snake_head_idx
        (effDir s10F none) = ((3 : Nat), (6 : Nat)) from by decide]
    exact s10F_t36
  have hok : updateFoodOk s10F none (1, 1) := by
    refine ⟨⟨by decide, by decide⟩, by decide, by decide, ?_⟩
    show (new 10 10 0 (3, 6)).tiles (1, 1) = Tile.Floor
    rw [new_tiles, if_neg (by decide)]
    exact preFloor11
  have hshapes := update_ok_of_shapes s10F none (1, 1) (by decide) (by decide)
    ⟨.Right, s10F_t33⟩ ⟨.Left, s10F_t35⟩ (by
      intro d hd
      have hdr : d = .Right := by
        injection s10F_t33.symm.trans hd with e1 e2
        injection e2 with e3
        exact e3.symm
      subst hdr
      rw [show add_dir_to_index s10F.level_width s10F.level_height s10F.snake_tail_idx
          .Right = ((3 : Nat), (4 : Nat)) from by decide]
      exact ⟨some .Left, .Right, s10F_t34⟩)
  obtain ⟨u, hu⟩ := hshapes
  exact ⟨u, hu, eat_grows_snake s10F u none (1, 1) s10F_reachable rfl hhit hok hu⟩

/-! ### C6: normal movement -/

/-- C6: on a reachable live state whose newly computed head cell is Floor,
a successful `update` rewrites the old head cell as `Snake(its existing
prev, Some heading)`, writes the new head cell as
`Snake(Some (reverse heading), None)`, clears the old tail cell to Floor,
advances `snake_tail_idx` one step along the old tail's next link and
rewrites the new tail as `Snake(None, its existing next)`, touching no
other cell and leaving the score unchanged; and on the 10×10 grid with the
initial snake at `(3,3)`–`(3,5)` heading Right, a single `update` with no
input moves the head to `(3,6)`, turns `(3,3)` into Floor, makes `(3,4)`
the new tail, and leaves the score at 0. -/
theorem move_semantics :
    (∀ (s s' : GameState) (input : Option Direction) (fi : TileIndex),
      Reachable s → s.snake_alive = true →
      s.tiles (add_dir_to_index s.level_width s.level_height s.snake_head_idx
        (effDir s input)) = Tile.Floor →
      update s input fi = .ok s' →
      ∃ p d0 d1,
        s.tiles s.snake_head_idx = .Snake (some p) none ∧
        s.tiles s.snake_tail_idx = .Snake none (some d0) ∧
        s.tiles (add_dir_to_index s.level_width s.level_height s.snake_tail_idx d0) =
          .Snake (some d0.reverse) (some d1) ∧
        s'.score = s.score ∧
        s'.snake_head_idx = add_dir_to_index s.level_width s.level_height
          s.snake_head_idx (effDir s input) ∧
        s'.snake_tail_idx = add_dir_to_index s.level_width s.level_height
          s.snake_tail_idx d0 ∧
        s'.tiles s.snake_head_idx = .Snake (some p) (some (effDir s input)) ∧
        s'.tiles (add_dir_to_index s.level_width s.level_height s.snake_head_idx
          (effDir s input)) = .Snake (some (effDir s input).reverse) none ∧
        s'.tiles s.snake_tail_idx = Tile.Floor ∧
        s'.tiles (add_dir_to_index s.level_width s.level_height s.snake_tail_idx d0) =
          .Snake none (some d1) ∧
        (∀ i, i ≠ s.snake_head_idx →
          i ≠ add_dir_to_index s.level_width s.level_height s.snake_head_idx
            (effDir s input) →
          i ≠ s.snake_tail_idx →
          i ≠ add_dir_to_index s.level_width s.level_height s.snake_tail_idx d0 →
          s'.tiles i = s.tiles i)) ∧
    (update s10 none (1, 1)).toOption.map
        (fun u => (u.snake_head_idx, u.snake_tail_idx, u.tiles (3, 3), u.score)) =
      some ((3, 6), (3, 4), Tile.Floor, 0) := by
  constructor
  · intro s s' input fi hr ha hhit h
    obtain ⟨⟨l, hc, hlast, hnd, hcover, hlen⟩, _⟩ := inv_reachable s hr
    obtain ⟨d0, hp, ntn, hgn, hgp, hgn2, hs⟩ := update_move_char s s' input fi ha hhit h
    obtain ⟨q0, hhd_tile0⟩ := get_snake_prev_ok hgp
    have hdmem : s.snake_head_idx ∈ l := getLast?_mem_list hlast
    obtain ⟨p2, hhd_tile1⟩ := hc.last_tile _ hlast
    have hq0 : q0 = none := by
      rw [hhd_tile0] at hhd_tile1
      simp only [Tile.Snake.injEq] at hhd_tile1
      exact hhd_tile1.2
    subst hq0
    have hhd_tile : s.tiles s.snake_head_idx = .Snake (some hp) none := hhd_tile0
    obtain ⟨qt, htl_tile0, hbtl⟩ := hc.first_tile
    obtain ⟨pt, htl_tile1⟩ := get_snake_next_ok hgn
    have hqt : qt = some d0 := by
      rw [htl_tile0] at htl_tile1
      simp only [Tile.Snake.injEq] at htl_tile1
      exact htl_tile1.2
    subst hqt
    have htl_tile : s.tiles s.snake_tail_idx = .Snake none (some d0) := htl_tile0
    have htl_ne_hd : s.snake_tail_idx ≠ s.snake_head_idx :=
      head_ne_last_of_nodup hnd hc.head_eq hlast (by omega)
    have hhd_ne_nh : s.snake_head_idx ≠ add_dir_to_index s.level_width s.level_height
        s.snake_head_idx (effDir s input) := by
      intro he; rw [← he, hhd_tile] at hhit; cases hhit
    have htl_ne_nh : s.snake_tail_idx ≠ add_dir_to_index s.level_width s.level_height
        s.snake_head_idx (effDir s input) := by
      intro he; rw [← he, htl_tile] at hhit; cases hhit
    cases hc with
    | single pr2 i2 hb2 ht2 =>
      simp at hlen
    | cons pr2 i2 d j m hb2 ht2 hstep2 hrest =>
      have e := htl_tile.symm.trans ht2
      injection e with e1 e2
      injection e2 with e3
      subst e3
      cases hrest with
      | single pr3 i3 hb3 ht3 =>
        simp at hlen
      | cons pr3 i3 d1 j2 m2 hb3 ht3 hstep3 hrest2 =>
        have hj_tl : j ≠ s.snake_tail_idx := by
          intro he
          have hni : s.snake_tail_idx ∉ j :: m2 := (List.nodup_cons.mp hnd).1
          apply hni
          rw [← he]
          exact List.mem_cons_self _ _
        have hj_hd : j ≠ s.snake_head_idx := by
          intro he
          rw [he, hhd_tile] at ht3
          injection ht3 with f1 f2
          cases f2
        have hj_nh : j ≠ add_dir_to_index s.level_width s.level_height s.snake_head_idx
            (effDir s input) := by
          intro he
          rw [he, hhit] at ht3
          cases ht3
        rw [hstep2] at hgn2 hs
        have hT3j : setTile (setTile (setTile s.tiles s.snake_head_idx
              (.Snake (some hp) (some (effDir s input))))
            (add_dir_to_index s.level_width s.level_height s.snake_head_idx (effDir s input))
            (.Snake (some (effDir s input).reverse) none))
            s.snake_tail_idx Tile.Floor j = .Snake (some d0.reverse) (some d1) := by
          rw [setTile_ne _ _ hj_tl, setTile_ne _ _ hj_nh, setTile_ne _ _ hj_hd]
          exact ht3
        unfold get_snake_next at hgn2
        rw [hT3j] at hgn2
        simp only [Except.ok.injEq] at hgn2
        subst hgn2
        have hT : s'.tiles = setTile (setTile (setTile (setTile s.tiles s.snake_head_idx
              (.Snake (some hp) (some (effDir s input))))
            (add_dir_to_index s.level_width s.level_height s.snake_head_idx (effDir s input))
            (.Snake (some (effDir s input).reverse) none))
            s.snake_tail_idx Tile.Floor) j (.Snake none (some d1)) := by rw [hs]
        refine ⟨hp, d0, d1, hhd_tile, htl_tile, ?_, by rw [hs], by rw [hs], ?_, ?_, ?_,
          ?_, ?_, ?_⟩
        · rw [hstep2]
          exact ht3
        · rw [hstep2, hs]
        · rw [hT, setTile_ne _ _ (Ne.symm hj_hd), setTile_ne _ _ (Ne.symm htl_ne_hd),
              setTile_ne _ _ hhd_ne_nh, setTile_eq]
        · rw [hT, setTile_ne _ _ (Ne.symm hj_nh), setTile_ne _ _ (Ne.symm htl_ne_nh),
              setTile_eq]
        · rw [hT, setTile_ne _ _ (Ne.symm hj_tl), setTile_eq]
        · rw [hstep2, hT, setTile_eq]
        · intro i hne_hd hne_nh hne_tl hne_nt
          rw [hstep2] at hne_nt
          rw [hT, setTile_ne _ _ hne_nt, setTile_ne _ _ hne_tl, setTile_ne _ _ hne_nh,
              setTile_ne _ _ hne_hd]
  · -- the 10×10 scenario
    have e_nh : add_dir_to_index s10.level_width s10.level_height s10.snake_head_idx
        (effDir s10 none) = ((3 : Nat), (6 : Nat)) := by decide
    have hhit10 : s10.tiles (add_dir_to_index s10.level_width s10.level_height
        s10.snake_head_idx (effDir s10 none)) = Tile.Floor := by
      rw [e_nh]
      exact s10_t36
    obtain ⟨u, hu⟩ := update_ok_of_shapes s10 none (1, 1) (by decide) (by decide)
      ⟨.Right, s10_t33⟩ ⟨.Left, s10_t35⟩ (by
        intro d hd
        have hdr : d = .Right := by
          injection s10_t33.symm.trans hd with e1 e2
          injection e2 with e3
          exact e3.symm
        subst hdr
        rw [show add_dir_to_index s10.level_width s10.level_height s10.snake_tail_idx
            .Right = ((3 : Nat), (4 : Nat)) from by decide]
        exact ⟨some .Left, .Right, s10_t34⟩)
    obtain ⟨d0, hp, ntn, hgn, hgp, hgn2, hs⟩ := update_move_char s10 u none (1, 1)
      rfl hhit10 hu
    have hgnR : get_snake_next s10.tiles s10.snake_tail_idx = .ok .Right := by
      unfold get_snake_next
      rw [show s10.snake_tail_idx = ((3 : Nat), (3 : Nat)) from rfl, s10_t33]
    have hd0 : d0 = .Right := by
      have e := hgn.symm.trans hgnR
      simpa using e
    subst hd0
    have hgpL : get_snake_prev s10.tiles s10.snake_head_idx = .ok .Left := by
      unfold get_snake_prev
      rw [show s10.snake_head_idx = ((3 : Nat), (5 : Nat)) from rfl, s10_t35]
    have hpL : hp = .Left := by
      have e := hgp.symm.trans hgpL
      simpa using e
    subst hpL
    rw [show add_dir_to_index s10.level_width s10.level_height s10.snake_tail_idx
        .Right = ((3 : Nat), (4 : Nat)) from by decide] at hgn2 hs
    have ht34x : setTile (setTile (setTile s10.tiles s10.snake_head_idx
          (.Snake (some .Left) (some (effDir s10 none))))
        (add_dir_to_index s10.level_width s10.level_height s10.snake_head_idx
          (effDir s10 none))
        (.Snake (some (effDir s10 none).reverse) none))
        s10.snake_tail_idx Tile.Floor ((3 : Nat), (4 : Nat)) =
        .Snake (some .Left) (some .Right) := by
      rw [setTile_ne _ _ (by decide), setTile_ne _ _ (by decide),
          setTile_ne _ _ (by decide)]
      exact s10_t34
    unfold get_snake_next at hgn2
    rw [ht34x] at hgn2
    simp only [Except.ok.injEq] at hgn2
    subst hgn2
    rw [hu, hs]
    decide

theorem move_semantics_witness :
    ∃ s', update s10 none (1, 1) = .ok s' ∧
      ∃ p d0 d1,
        s10.tiles s10.snake_head_idx = .Snake (some p) none ∧
        s10.tiles s10.snake_tail_idx = .Snake none (some d0) ∧
        s10.tiles (add_dir_to_index s10.level_width s10.level_height
          s10.snake_tail_idx d0) = .Snake (some d0.reverse) (some d1) ∧
        s'.score = s10.score ∧
        s'.snake_head_idx = add_dir_to_index s10.level_width s10.level_height
          s10.snake_head_idx (effDir s10 none) ∧
        s'.snake_tail_idx = add_dir_to_index s10.level_width s10.level_height
          s10.snake_tail_idx d0 ∧
        s'.tiles s10.snake_head_idx = .Snake (some p) (some (effDir s10 none)) ∧
        s'.tiles (add_dir_to_index s10.level_width s10.level_height s10.snake_head_idx
          (effDir s10 none)) = .Snake (some (effDir s10 none).reverse) none ∧
        s'.tiles s10.snake_tail_idx = Tile.Floor ∧
        s'.tiles (add_dir_to_index s10.level_width s10.level_height
          s10.snake_tail_idx d0) = .Snake none (some d1) ∧
        (∀ i, i ≠ s10.snake_head_idx →
          i ≠ add_dir_to_index s10.level_width s10.level_height s10.snake_head_idx
            (effDir s10 none) →
          i ≠ s10.snake_tail_idx →
          i ≠ add_dir_to_index s10.level_width s10.level_height s10.snake_tail_idx d0 →
          s'.tiles i = s10.tiles i) := by
  have hhit10 : s10.tiles (add_dir_to_index s10.level_width s10.level_height
      s10.snake_head_idx (effDir s10 none)) = Tile.Floor := by
    rw [show add_dir_to_index s10.level_width s10.level_height s10.snake_head_idx
        (effDir s10 none) = ((3 : Nat), (6 : Nat)) from by decide]
    exact s10_t36
  obtain ⟨u, hu⟩ := update_ok_of_shapes s10 none (1, 1) (by decide) (by decide)
    ⟨.Right, s10_t33⟩ ⟨.Left, s10_t35⟩ (by
      intro d hd
      have hdr : d = .Right := by
        injection s10_t33.symm.trans hd with e1 e2
        injection e2 with e3
        exact e3.symm
      subst hdr
      rw [show add_dir_to_index s10.level_width s10.level_height s10.snake_tail_idx
          .Right = ((3 : Nat), (4 : Nat)) from by decide]
      exact ⟨some .Left, .Right, s10_t34⟩)
  exact ⟨u, hu, move_semantics.1 s10 u none (1, 1) s10_reachable rfl hhit10 hu⟩

end Snake
